import Mathlib

/-!
Verification of the reconciliation pipeline of the parametric sequencer.

The TypeScript sources are embedded shallowly over `ℚ`:
JavaScript numbers are modelled as rationals (every operation the pipeline
performs on times, positions, opacities and quaternion components is
field arithmetic, `min`/`max` and comparisons, all exact on `ℚ`); the one
place where the JS `number` domain itself matters (`NaN`/`Infinity`
handling in the time extender) uses an explicit `JSNum` type.  The two
transcendental helpers of the math library (`Quaternion.setFromEuler`,
`Quaternion.slerp`) are kept abstract: the reconciler definitions take
them as function parameters, so every structural fact proved below holds
for the actual trigonometric implementations.

Source files embedded:
  * `2d/lib/reconciliation/keyframes/01_reconcileKeyframes_time.ts`
  * `3d/lib/reconciliation/keyframes/02_reconcileKeyframes_expandTime.ts`
  * `2d/lib/reconciliation/keyframes/03_reconcileKeyframes_sortForMarkerPositions.ts`
  * `3d/lib/reconciliation/animationState/reconcile_animationState.ts`
  * `lib/math` (`Vector3.ts`, `Quaternion.ts`)
-/

namespace Sequencer

/-- Float comparison constant from `reconcile_animationState.ts`: `EPSILON = 1e-6`. -/
def EPSILON : ℚ := 1 / 1000000

/-- `Vector3` from `Vector3.ts`, as an immutable value (the class mutates in
place; every use in the reconciler goes through `clone`/`new`, so the value
semantics coincide). -/
structure Vector3 where
  x : ℚ
  y : ℚ
  z : ℚ
deriving DecidableEq, Repr

/-- `new Vector3(0, 0, 0)`. -/
def Vector3.zero : Vector3 := ⟨0, 0, 0⟩

/-- `Vector3.add`. -/
def Vector3.add (a b : Vector3) : Vector3 := ⟨a.x + b.x, a.y + b.y, a.z + b.z⟩

/-- `Vector3.lerp`: `this.x += (v.x - this.x) * alpha`, componentwise. -/
def Vector3.lerp (a b : Vector3) (alpha : ℚ) : Vector3 :=
  ⟨a.x + (b.x - a.x) * alpha, a.y + (b.y - a.y) * alpha, a.z + (b.z - a.z) * alpha⟩

/-- `Quaternion` from `Quaternion.ts`, as an immutable value. -/
structure Quaternion where
  x : ℚ
  y : ℚ
  z : ℚ
  w : ℚ
deriving DecidableEq, Repr

/-- `new Quaternion()` (the identity rotation `(0,0,0,1)`). -/
def Quaternion.identity : Quaternion := ⟨0, 0, 0, 1⟩

/-- `Quaternion.multiplyQuaternions(a, b)`; `a.multiply(b)` is `mul a b`. -/
def Quaternion.mul (a b : Quaternion) : Quaternion :=
  ⟨a.x * b.w + a.w * b.x + a.y * b.z - a.z * b.y,
   a.y * b.w + a.w * b.y + a.z * b.x - a.x * b.z,
   a.z * b.w + a.w * b.z + a.x * b.y - a.y * b.x,
   a.w * b.w - a.x * b.x - a.y * b.y - a.z * b.z⟩

/-- `Vector3.applyQuaternion`, transcribed from `Vector3.ts` lines 52-68. -/
def Vector3.applyQuaternion (v : Vector3) (q : Quaternion) : Vector3 :=
  let ix := q.w * v.x + q.y * v.z - q.z * v.y
  let iy := q.w * v.y + q.z * v.x - q.x * v.z
  let iz := q.w * v.z + q.x * v.y - q.y * v.x
  let iw := -q.x * v.x - q.y * v.y - q.z * v.z
  ⟨ix * q.w + iw * (-q.x) + iy * (-q.z) - iz * (-q.y),
   iy * q.w + iw * (-q.y) + iz * (-q.x) - ix * (-q.z),
   iz * q.w + iw * (-q.z) + ix * (-q.y) - iy * (-q.x)⟩

/-- Euler angles (degrees, order `XYZ` throughout the pipeline), from `Euler.ts`. -/
structure EulerS where
  x : ℚ
  y : ℚ
  z : ℚ
deriving DecidableEq, Repr

/-- The scalar `lerp` helper of `reconcile_animationState.ts`:
`start + (end - start) * t`. -/
def lerp (s e t : ℚ) : ℚ := s + (e - s) * t

/-! ## Time specifications (`types.ts`) -/

/-- The `side` field of a relative time reference: `'Start' | 'End'`. -/
inductive TimeSide
  | sideStart
  | sideEnd
deriving DecidableEq, Repr

/-- One relative time reference `{offset, side, parentID}`. -/
structure TimeRelative where
  offset : ℚ
  side : TimeSide
  parentID : String
deriving DecidableEq, Repr

/-- `type_time`: tagged union of absolute / relative / multiple time specs. -/
inductive TimeSpec
  | absolute (value : ℚ)
  | relative (value : TimeRelative)
  | multiple (values : List TimeRelative)
deriving DecidableEq, Repr

/-- The part of a keyframe the time resolver looks at: `{id, duration, time}`
(the entity reference and property deltas are irrelevant to time
reconciliation, which treats model and camera keyframes uniformly). -/
structure TimeKeyframe where
  id : String
  duration : ℚ
  time : TimeSpec
deriving DecidableEq, Repr

/-- `{startTime, endTime}` as attached by the time resolver. -/
structure ReconciledTime where
  startTime : ℚ
  endTime : ℚ
deriving DecidableEq, Repr

/-- `type_keyframes_reconciledTime2D`: a keyframe with its resolved window. -/
structure ReconciledKeyframe where
  reconciled : ReconciledTime
  keyframe : TimeKeyframe
deriving DecidableEq, Repr

/-- `createReconciledKeyframe`: `endTime = startTime + keyframe.duration`. -/
def createReconciledKeyframe (startTime : ℚ) (keyframe : TimeKeyframe) : ReconciledKeyframe :=
  ⟨⟨startTime, startTime + keyframe.duration⟩, keyframe⟩

/-- `resolvedMap.get parentID`.  The JS `Map` is modelled by the list of
resolved keyframes itself (entries are inserted exactly once per id, in
result order, so first-match lookup agrees with the map). -/
def findResolved (resolvedMap : List ReconciledKeyframe) (parentID : String) :
    Option ReconciledKeyframe :=
  resolvedMap.find? (fun r => r.keyframe.id == parentID)

/-- `side === 'Start' ? parent.reconciled.startTime : parent.reconciled.endTime`. -/
def anchorTime (p : ReconciledKeyframe) (side : TimeSide) : ℚ :=
  match side with
  | .sideStart => p.reconciled.startTime
  | .sideEnd => p.reconciled.endTime

/-- The time contributed by one reference of a `relative`/`multiple` spec:
`(side === 'Start' ? parent.startTime : parent.endTime) + offset`,
`none` when the parent is not yet resolved. -/
def refTime (resolvedMap : List ReconciledKeyframe) (tv : TimeRelative) : Option ℚ :=
  (findResolved resolvedMap tv.parentID).map (fun p => anchorTime p tv.side + tv.offset)

/-- The `multiple` loop of `tryResolveKeyframeTime` after its first
reference: `latestParentTime = Math.max(latestParentTime, parentTime)`,
returning `none` as soon as a parent is missing. -/
def resolveMultipleFrom (resolvedMap : List ReconciledKeyframe) (acc : ℚ) :
    List TimeRelative → Option ℚ
  | [] => some acc
  | tv :: rest =>
    match refTime resolvedMap tv with
    | none => none
    | some t => resolveMultipleFrom resolvedMap (max acc t) rest

/-- `tryResolveKeyframeTime` (`01_reconcileKeyframes_time.ts` lines 68-106):
`some startTime` models `{resolved: true, startTime}`, `none` models
`{resolved: false}`.  The `multiple` loop seeds its running maximum with
`-Infinity`, which equals folding `max` from the first reference; an empty
reference list (which validation rejects, so the case is unreachable) is
treated as unresolved. -/
def tryResolveKeyframeTime (keyframe : TimeKeyframe)
    (resolvedMap : List ReconciledKeyframe) : Option ℚ :=
  match keyframe.time with
  | .absolute v => some v
  | .relative tv => refTime resolvedMap tv
  | .multiple [] => none
  | .multiple (tv :: rest) =>
    match refTime resolvedMap tv with
    | none => none
    | some t => resolveMultipleFrom resolvedMap t rest

/-! ## Validation (`validateKeyframes`) -/

/-- The per-keyframe checks of `validateKeyframes` that are expressible over
`ℚ` (non-finite values are unrepresentable): a truthy string id, a
non-negative duration, and a non-empty reference list for `multiple`
specs.  The remaining JS checks (fields present and of the right dynamic
type, `side` one of `'Start' | 'End'`) hold by typing. -/
def keyframeValid (kf : TimeKeyframe) : Bool :=
  (kf.id != "") && decide (0 ≤ kf.duration) &&
    (match kf.time with
     | .multiple values => !values.isEmpty
     | _ => true)

/-- The duplicate-id scan of `validateKeyframes`: ids already seen are
collected, in input order. -/
def findDuplicateIDs (seen : List String) : List TimeKeyframe → List String
  | [] => []
  | kf :: rest =>
    if kf.id ∈ seen then kf.id :: findDuplicateIDs seen rest
    else findDuplicateIDs (kf.id :: seen) rest

/-- Structured form of the errors `reconcileKeyframesTimeInternal` throws:
duplicate ids are batch-fatal, and so is a non-empty set of keyframes left
unresolved by the fixpoint loop (each reported with its declared parent
ids). -/
inductive ResolveError
  | duplicateIDs (ids : List String)
  | unresolvedDependencies (details : List (String × List String))
deriving DecidableEq, Repr

/-- `validateKeyframes`: throws on duplicate ids, otherwise filters out the
invalid entries and keeps the batch. -/
def validateKeyframes (keyframes : List TimeKeyframe) :
    Except ResolveError (List TimeKeyframe) :=
  match findDuplicateIDs [] keyframes with
  | [] => .ok (keyframes.filter keyframeValid)
  | d :: ds => .error (.duplicateIDs (d :: ds))

/-- `isAbsoluteKeyframe`. -/
def isAbsoluteKeyframe (kf : TimeKeyframe) : Bool :=
  match kf.time with
  | .absolute _ => true
  | _ => false

/-- `isRelativeOrMultipleKeyframe`. -/
def isRelativeOrMultipleKeyframe (kf : TimeKeyframe) : Bool :=
  match kf.time with
  | .absolute _ => false
  | _ => true

/-- The declared absolute value of an absolute keyframe (`keyframe.time.value`). -/
def absoluteStart (kf : TimeKeyframe) : ℚ :=
  match kf.time with
  | .absolute v => v
  | _ => 0

/-! ## The fixpoint loop -/

/-- One pass of the resolution loop over the still-unresolved keyframes.
The resolved map grows live inside the pass (the source calls
`resolvedMap.set` while iterating), newly resolved keyframes are appended
in pass order, and the pass reports whether it made progress.  Returns
(final resolved list, keyframes still unresolved, madeProgress). -/
def resolutionPass (resolvedMap : List ReconciledKeyframe) :
    List TimeKeyframe → List ReconciledKeyframe × List TimeKeyframe × Bool
  | [] => (resolvedMap, [], false)
  | kf :: rest =>
    match tryResolveKeyframeTime kf resolvedMap with
    | some startTime =>
      let out := resolutionPass (resolvedMap ++ [createReconciledKeyframe startTime kf]) rest
      (out.1, out.2.1, true)
    | none =>
      let out := resolutionPass resolvedMap rest
      (out.1, kf :: out.2.1, out.2.2)

/-- `MAX_ITERATIONS = 100`. -/
def MAX_ITERATIONS : Nat := 100

/-- The `for (let iteration = 0; ...)` loop: repeat passes while unresolved
keyframes remain, stopping early when a pass makes no progress. -/
def resolutionLoop : Nat → List ReconciledKeyframe → List TimeKeyframe →
    List ReconciledKeyframe × List TimeKeyframe
  | 0, resolvedMap, unresolved => (resolvedMap, unresolved)
  | fuel + 1, resolvedMap, unresolved =>
    if unresolved.isEmpty then (resolvedMap, unresolved)
    else
      let out := resolutionPass resolvedMap unresolved
      if out.2.2 then resolutionLoop fuel out.1 out.2.1
      else (out.1, out.2.1)

/-- The error detail built for one unresolved keyframe: its id and its
declared parent ids (`depends on: ...`). -/
def unresolvedDetail (kf : TimeKeyframe) : String × List String :=
  (kf.id,
   match kf.time with
   | .relative tv => [tv.parentID]
   | .multiple values => values.map (fun v => v.parentID)
   | .absolute _ => [])

/-- `reconcileKeyframesTimeInternal` (`01_reconcileKeyframes_time.ts` lines
230-306): validate, resolve the absolute keyframes first, run the fixpoint
loop, and fail on any keyframe left unresolved. -/
def reconcileKeyframesTimeInternal (keyframes : List TimeKeyframe) :
    Except ResolveError (List ReconciledKeyframe) :=
  match validateKeyframes keyframes with
  | .error e => .error e
  | .ok validKeyframes =>
    if validKeyframes.isEmpty then .ok []
    else
      let absoluteKeyframes := validKeyframes.filter isAbsoluteKeyframe
      let unresolvedKeyframes := validKeyframes.filter isRelativeOrMultipleKeyframe
      let initialResolved :=
        absoluteKeyframes.map (fun kf => createReconciledKeyframe (absoluteStart kf) kf)
      let out := resolutionLoop MAX_ITERATIONS initialResolved unresolvedKeyframes
      if out.2.isEmpty then .ok out.1
      else .error (.unresolvedDependencies (out.2.map unresolvedDetail))

/-- Equality of `Except` results is decidable (used to evaluate the pipeline
on concrete batches). -/
instance {ε α : Type} [DecidableEq ε] [DecidableEq α] : DecidableEq (Except ε α) := fun a b =>
  match a, b with
  | .ok x, .ok y => decidable_of_iff (x = y) (by simp)
  | .error x, .error y => decidable_of_iff (x = y) (by simp)
  | .ok _, .error _ => isFalse (by simp)
  | .error _, .ok _ => isFalse (by simp)

/-- All reference times of a `multiple` spec, `none` if any parent is missing. -/
def refTimes (resolvedMap : List ReconciledKeyframe) :
    List TimeRelative → Option (List ℚ)
  | [] => some []
  | tv :: rest =>
    match refTime resolvedMap tv, refTimes resolvedMap rest with
    | some t, some ts => some (t :: ts)
    | _, _ => none

/-- What C1 asserts of one resolved keyframe, relative to the final resolved
list `L`: the window closes over the duration, an absolute spec keeps its
declared start, a relative spec is anchored on its parent's resolved
window, and a multiple spec takes the maximum of its resolved references. -/
def entrySpec (L : List ReconciledKeyframe) (r : ReconciledKeyframe) : Prop :=
  r.reconciled.endTime = r.reconciled.startTime + r.keyframe.duration ∧
  (∀ v, r.keyframe.time = .absolute v → r.reconciled.startTime = v) ∧
  (∀ tv, r.keyframe.time = .relative tv →
    ∃ p, findResolved L tv.parentID = some p ∧
      r.reconciled.startTime = anchorTime p tv.side + tv.offset) ∧
  (∀ values, r.keyframe.time = .multiple values →
    ∃ ts, refTimes L values = some ts ∧
      r.reconciled.startTime ∈ ts ∧ ∀ u ∈ ts, u ≤ r.reconciled.startTime)

theorem find?_append_some {α : Type} (p : α → Bool) {L M : List α} {a : α}
    (h : L.find? p = some a) : (L ++ M).find? p = some a := by
  induction L with
  | nil => simp at h
  | cons x xs ih =>
    rw [List.cons_append]
    by_cases hx : p x = true
    · rw [List.find?_cons_of_pos _ hx] at h ⊢; exact h
    · rw [List.find?_cons_of_neg _ (by simpa using hx)] at h ⊢; exact ih h

theorem findResolved_append {L M : List ReconciledKeyframe} {pid : String}
    {p : ReconciledKeyframe} (h : findResolved L pid = some p) :
    findResolved (L ++ M) pid = some p :=
  find?_append_some _ h

theorem refTime_append {L M : List ReconciledKeyframe} {tv : TimeRelative} {t : ℚ}
    (h : refTime L tv = some t) : refTime (L ++ M) tv = some t := by
  unfold refTime at h ⊢
  cases hf : findResolved L tv.parentID with
  | none => rw [hf] at h; simp at h
  | some p => rw [hf] at h; rw [findResolved_append hf]; exact h

theorem refTimes_append {L M : List ReconciledKeyframe} {values : List TimeRelative}
    {ts : List ℚ} (h : refTimes L values = some ts) : refTimes (L ++ M) values = some ts := by
  induction values generalizing ts with
  | nil => simpa [refTimes] using h
  | cons tv rest ih =>
    unfold refTimes at h ⊢
    cases hr : refTime L tv with
    | none => rw [hr] at h; simp at h
    | some t =>
      cases hrest : refTimes L rest with
      | none => rw [hr, hrest] at h; simp at h
      | some ts2 =>
        rw [hr, hrest] at h
        rw [refTime_append hr, ih hrest]
        exact h

theorem entrySpec_append {L M : List ReconciledKeyframe} {r : ReconciledKeyframe}
    (h : entrySpec L r) : entrySpec (L ++ M) r := by
  obtain ⟨hdur, habs, hrel, hmul⟩ := h
  refine ⟨hdur, habs, ?_, ?_⟩
  · intro tv htv
    obtain ⟨p, hp, hs⟩ := hrel tv htv
    exact ⟨p, findResolved_append hp, hs⟩
  · intro values hv
    obtain ⟨ts, hts, hmem, hle⟩ := hmul values hv
    exact ⟨ts, refTimes_append hts, hmem, hle⟩

theorem foldl_max_spec (ts : List ℚ) : ∀ acc : ℚ,
    (List.foldl max acc ts = acc ∨ List.foldl max acc ts ∈ ts) ∧
    acc ≤ List.foldl max acc ts ∧ ∀ u ∈ ts, u ≤ List.foldl max acc ts := by
  induction ts with
  | nil => intro acc; exact ⟨Or.inl rfl, le_refl _, by simp⟩
  | cons t rest ih =>
    intro acc
    obtain ⟨hmem, hacc, hall⟩ := ih (max acc t)
    have hfold : List.foldl max acc (t :: rest) = List.foldl max (max acc t) rest := rfl
    rw [hfold]
    refine ⟨?_, le_trans (le_max_left acc t) hacc, ?_⟩
    · rcases hmem with h | h
      · rcases max_choice acc t with he | he
        · exact Or.inl (by rw [h, he])
        · exact Or.inr (by rw [h, he]; exact List.mem_cons_self t rest)
      · exact Or.inr (List.mem_cons_of_mem t h)
    · intro u hu
      rcases List.mem_cons.mp hu with rfl | hu
      · exact le_trans (le_max_right acc u) hacc
      · exact hall u hu

theorem resolveMultipleFrom_spec (L : List ReconciledKeyframe)
    (values : List TimeRelative) : ∀ acc s : ℚ,
    resolveMultipleFrom L acc values = some s →
    ∃ ts, refTimes L values = some ts ∧ s = List.foldl max acc ts := by
  induction values with
  | nil =>
    intro acc s h
    refine ⟨[], rfl, ?_⟩
    have : acc = s := by simpa [resolveMultipleFrom] using h
    simp [this]
  | cons tv rest ih =>
    intro acc s h
    unfold resolveMultipleFrom at h
    cases hr : refTime L tv with
    | none => rw [hr] at h; simp at h
    | some t =>
      rw [hr] at h
      obtain ⟨ts, hts, hs⟩ := ih (max acc t) s h
      exact ⟨t :: ts, by simp [refTimes, hr, hts], by simpa using hs⟩

theorem tryResolve_absolute {kf : TimeKeyframe} {v : ℚ} (L : List ReconciledKeyframe)
    (h : kf.time = .absolute v) : tryResolveKeyframeTime kf L = some v := by
  rw [tryResolveKeyframeTime, h]

theorem tryResolve_relative {kf : TimeKeyframe} {tv : TimeRelative}
    (L : List ReconciledKeyframe) (h : kf.time = .relative tv) :
    tryResolveKeyframeTime kf L = refTime L tv := by
  rw [tryResolveKeyframeTime, h]

theorem tryResolve_multiple_nil {kf : TimeKeyframe} (L : List ReconciledKeyframe)
    (h : kf.time = .multiple []) : tryResolveKeyframeTime kf L = none := by
  rw [tryResolveKeyframeTime, h]

theorem tryResolve_multiple_cons {kf : TimeKeyframe} {tv : TimeRelative}
    {rest : List TimeRelative} (L : List ReconciledKeyframe)
    (h : kf.time = .multiple (tv :: rest)) :
    tryResolveKeyframeTime kf L =
      (match refTime L tv with
       | none => none
       | some t => resolveMultipleFrom L t rest) := by
  rw [tryResolveKeyframeTime, h]

theorem tryResolve_entrySpec {kf : TimeKeyframe} {L : List ReconciledKeyframe} {s : ℚ}
    (h : tryResolveKeyframeTime kf L = some s) :
    entrySpec L (createReconciledKeyframe s kf) := by
  refine ⟨rfl, ?_, ?_, ?_⟩
  · intro v hv
    replace hv : kf.time = TimeSpec.absolute v := hv
    rw [tryResolve_absolute L hv] at h
    simpa [createReconciledKeyframe] using h.symm
  · intro tv htv
    replace htv : kf.time = TimeSpec.relative tv := htv
    rw [tryResolve_relative L htv] at h
    unfold refTime at h
    cases hf : findResolved L tv.parentID with
    | none => rw [hf] at h; simp at h
    | some p =>
      rw [hf] at h
      simp only [Option.map_some'] at h
      exact ⟨p, rfl, by simpa [createReconciledKeyframe] using h.symm⟩
  · intro values hv
    replace hv : kf.time = TimeSpec.multiple values := hv
    cases values with
    | nil => rw [tryResolve_multiple_nil L hv] at h; simp at h
    | cons tv rest =>
      rw [tryResolve_multiple_cons L hv] at h
      cases hr : refTime L tv with
      | none => rw [hr] at h; simp at h
      | some t =>
        rw [hr] at h
        obtain ⟨ts, hts, hs⟩ := resolveMultipleFrom_spec L rest t s h
        obtain ⟨hchoice, hle, hall⟩ := foldl_max_spec ts t
        refine ⟨t :: ts, by simp [refTimes, hr, hts], ?_, ?_⟩
        · rcases hchoice with hc | hc
          · simp [createReconciledKeyframe, hs, hc]
          · simp [createReconciledKeyframe, hs]
            exact Or.inr (hs ▸ hc)
        · intro u hu
          rcases List.mem_cons.mp hu with rfl | hu
          · simpa [createReconciledKeyframe, hs] using hle
          · simpa [createReconciledKeyframe, hs] using hall u hu

theorem resolutionPass_spec : ∀ (u : List TimeKeyframe) (L : List ReconciledKeyframe),
    (∀ r ∈ L, entrySpec L r) →
    (∀ r ∈ (resolutionPass L u).1, entrySpec (resolutionPass L u).1 r) ∧
    ∃ M, (resolutionPass L u).1 = L ++ M := by
  intro u
  induction u with
  | nil => intro L hL; exact ⟨hL, [], by simp [resolutionPass]⟩
  | cons kf rest ih =>
    intro L hL
    unfold resolutionPass
    cases htry : tryResolveKeyframeTime kf L with
    | some s =>
      simp only
      have hL2 : ∀ r ∈ L ++ [createReconciledKeyframe s kf],
          entrySpec (L ++ [createReconciledKeyframe s kf]) r := by
        intro r hr
        rcases List.mem_append.mp hr with hr | hr
        · exact entrySpec_append (hL r hr)
        · rcases List.mem_singleton.mp hr with rfl
          exact entrySpec_append (tryResolve_entrySpec htry)
      obtain ⟨hspec, M, hM⟩ := ih (L ++ [createReconciledKeyframe s kf]) hL2
      exact ⟨hspec, createReconciledKeyframe s kf :: M, by rw [hM]; simp⟩
    | none =>
      simp only
      obtain ⟨hspec, M, hM⟩ := ih L hL
      exact ⟨hspec, M, hM⟩

theorem resolutionLoop_spec : ∀ (fuel : Nat) (L : List ReconciledKeyframe)
    (u : List TimeKeyframe), (∀ r ∈ L, entrySpec L r) →
    ∀ r ∈ (resolutionLoop fuel L u).1, entrySpec (resolutionLoop fuel L u).1 r := by
  intro fuel
  induction fuel with
  | zero => intro L u hL; simpa [resolutionLoop] using hL
  | succ n ih =>
    intro L u hL
    unfold resolutionLoop
    by_cases hu : u.isEmpty
    · simpa [hu] using hL
    · simp only [hu, if_false, Bool.false_eq_true]
      obtain ⟨hspec, _⟩ := resolutionPass_spec u L hL
      by_cases hp : (resolutionPass L u).2.2
      · simp only [hp, if_true]
        exact ih _ _ hspec
      · simpa [hp] using hspec

theorem initialResolved_spec (valid : List TimeKeyframe) :
    ∀ r ∈ (valid.filter isAbsoluteKeyframe).map
      (fun kf => createReconciledKeyframe (absoluteStart kf) kf),
      entrySpec ((valid.filter isAbsoluteKeyframe).map
        (fun kf => createReconciledKeyframe (absoluteStart kf) kf)) r := by
  intro r hr
  obtain ⟨kf, hkf, rfl⟩ := List.mem_map.mp hr
  have habs : isAbsoluteKeyframe kf = true := (List.mem_filter.mp hkf).2
  refine ⟨rfl, ?_, ?_, ?_⟩
  · intro v hv
    replace hv : kf.time = TimeSpec.absolute v := hv
    show absoluteStart kf = v
    rw [absoluteStart, hv]
  · intro tv htv
    replace htv : kf.time = TimeSpec.relative tv := htv
    rw [isAbsoluteKeyframe, htv] at habs
    simp at habs
  · intro values hv
    replace hv : kf.time = TimeSpec.multiple values := hv
    rw [isAbsoluteKeyframe, hv] at habs
    simp at habs

/-- C1: for every keyframe in a successfully resolved batch, the resolved
window satisfies the time-resolver equations: `endTime = startTime +
duration`; an `Absolute(value)` spec resolves to `startTime = value`; a
`Relative(offset, side, parentID)` spec resolves to the parent's start
(`side = Start`) or end (`side = End`) plus the offset; and a `Multiple`
spec resolves to the maximum over all its references, each resolved the
same way. -/
theorem timeResolver_resolved_window_spec (keyframes : List TimeKeyframe)
    (res : List ReconciledKeyframe)
    (h : reconcileKeyframesTimeInternal keyframes = .ok res) :
    ∀ r ∈ res,
      r.reconciled.endTime = r.reconciled.startTime + r.keyframe.duration ∧
      (∀ v, r.keyframe.time = .absolute v → r.reconciled.startTime = v) ∧
      (∀ tv, r.keyframe.time = .relative tv →
        ∃ p, findResolved res tv.parentID = some p ∧
          r.reconciled.startTime = anchorTime p tv.side + tv.offset) ∧
      (∀ values, r.keyframe.time = .multiple values →
        ∃ ts, refTimes res values = some ts ∧
          r.reconciled.startTime ∈ ts ∧ ∀ u ∈ ts, u ≤ r.reconciled.startTime) := by
  unfold reconcileKeyframesTimeInternal at h
  cases hv : validateKeyframes keyframes with
  | error e => rw [hv] at h; exact absurd h (by simp)
  | ok valid =>
    rw [hv] at h
    by_cases he : valid.isEmpty
    · simp only [he, if_true] at h
      cases h
      intro r hr
      simp at hr
    · simp only [he, if_false, Bool.false_eq_true] at h
      set initial := (valid.filter isAbsoluteKeyframe).map
        (fun kf => createReconciledKeyframe (absoluteStart kf) kf) with hinit
      set out := resolutionLoop MAX_ITERATIONS initial
        (valid.filter isRelativeOrMultipleKeyframe) with hout
      by_cases hu : out.2.isEmpty
      · simp only [hu, if_true] at h
        cases h
        exact resolutionLoop_spec MAX_ITERATIONS initial
          (valid.filter isRelativeOrMultipleKeyframe) (initialResolved_spec valid)
      · simp only [hu, if_false, Bool.false_eq_true] at h
        exact absurd h (by simp)

/-- A small concrete batch: `A` absolute at 0 (window [0,1]), `B` absolute at
1 (window [1,3]), `M` depending on the `End` of both `A` and `B` with zero
offsets, `R` relative to the `End` of `A` with offset 1/2. -/
def demoBatch : List TimeKeyframe :=
  [⟨"A", 1, .absolute 0⟩,
   ⟨"B", 2, .absolute 1⟩,
   ⟨"M", 1, .multiple [⟨0, .sideEnd, "A"⟩, ⟨0, .sideEnd, "B"⟩]⟩,
   ⟨"R", 1, .relative ⟨(1 : ℚ)/2, .sideEnd, "A"⟩⟩]

/-- The resolved form of `demoBatch`: `M` resolves to the maximum anchor 3
(parents ending at 1 and 3, offsets 0), `R` to 2.5. -/
def demoResolved : List ReconciledKeyframe :=
  [⟨⟨0, 1⟩, ⟨"A", 1, .absolute 0⟩⟩,
   ⟨⟨1, 3⟩, ⟨"B", 2, .absolute 1⟩⟩,
   ⟨⟨3, 4⟩, ⟨"M", 1, .multiple [⟨0, .sideEnd, "A"⟩, ⟨0, .sideEnd, "B"⟩]⟩⟩,
   ⟨⟨(3 : ℚ)/2, (5 : ℚ)/2⟩, ⟨"R", 1, .relative ⟨(1 : ℚ)/2, .sideEnd, "A"⟩⟩⟩]

/-- The `Multiple` entry of `demoResolved`. -/
def demoMultipleEntry : ReconciledKeyframe :=
  ⟨⟨3, 4⟩, ⟨"M", 1, .multiple [⟨0, .sideEnd, "A"⟩, ⟨0, .sideEnd, "B"⟩]⟩⟩

theorem timeResolver_resolved_window_spec_witness :
    reconcileKeyframesTimeInternal demoBatch = .ok demoResolved ∧
    demoMultipleEntry ∈ demoResolved ∧
    (demoMultipleEntry.reconciled.endTime =
      demoMultipleEntry.reconciled.startTime + demoMultipleEntry.keyframe.duration ∧
    (∀ v, demoMultipleEntry.keyframe.time = .absolute v →
      demoMultipleEntry.reconciled.startTime = v) ∧
    (∀ tv, demoMultipleEntry.keyframe.time = .relative tv →
      ∃ p, findResolved demoResolved tv.parentID = some p ∧
        demoMultipleEntry.reconciled.startTime = anchorTime p tv.side + tv.offset) ∧
    (∀ values, demoMultipleEntry.keyframe.time = .multiple values →
      ∃ ts, refTimes demoResolved values = some ts ∧
        demoMultipleEntry.reconciled.startTime ∈ ts ∧
        ∀ u ∈ ts, u ≤ demoMultipleEntry.reconciled.startTime)) :=
  ⟨by with_unfolding_all decide, by with_unfolding_all decide,
   timeResolver_resolved_window_spec demoBatch demoResolved (by with_unfolding_all decide)
     demoMultipleEntry (by with_unfolding_all decide)⟩

/-- The circular batch of the claim: keyframe `A`'s time is relative to `B`
and `B`'s to `A`. -/
def cycleBatch : List TimeKeyframe :=
  [⟨"A", 1, .relative ⟨0, .sideStart, "B"⟩⟩,
   ⟨"B", 1, .relative ⟨0, .sideStart, "A"⟩⟩]

/-- C8: a batch whose relative time references cannot all be resolved by the
fixpoint loop fails with a batch-fatal `unresolvedDependencies` error that
names each unresolved keyframe together with its declared parent ids — it
is never returned as a success with defaulted times.  In particular the
`A`/`B` cycle fails naming both ids. -/
theorem timeResolver_unresolved_fatal :
    reconcileKeyframesTimeInternal cycleBatch =
      .error (.unresolvedDependencies [("A", ["B"]), ("B", ["A"])]) ∧
    ∀ keyframes valid : List TimeKeyframe,
      validateKeyframes keyframes = .ok valid → valid.isEmpty = false →
      ∀ still : List TimeKeyframe,
        (resolutionLoop MAX_ITERATIONS
          ((valid.filter isAbsoluteKeyframe).map
            (fun kf => createReconciledKeyframe (absoluteStart kf) kf))
          (valid.filter isRelativeOrMultipleKeyframe)).2 = still →
        still.isEmpty = false →
        reconcileKeyframesTimeInternal keyframes =
          .error (.unresolvedDependencies (still.map unresolvedDetail)) := by
  constructor
  · with_unfolding_all decide
  · intro keyframes valid hvalid hne still hstill hsne
    unfold reconcileKeyframesTimeInternal
    rw [hvalid]
    simp only [hne, Bool.false_eq_true, if_false]
    rw [hstill, hsne]
    simp

theorem timeResolver_unresolved_fatal_witness :
    validateKeyframes cycleBatch = .ok cycleBatch ∧
    cycleBatch.isEmpty = false ∧
    (resolutionLoop MAX_ITERATIONS
      ((cycleBatch.filter isAbsoluteKeyframe).map
        (fun kf => createReconciledKeyframe (absoluteStart kf) kf))
      (cycleBatch.filter isRelativeOrMultipleKeyframe)).2 = cycleBatch ∧
    cycleBatch.isEmpty = false ∧
    reconcileKeyframesTimeInternal cycleBatch =
      .error (.unresolvedDependencies (cycleBatch.map unresolvedDetail)) :=
  ⟨by with_unfolding_all decide, by with_unfolding_all decide,
   by with_unfolding_all decide, by with_unfolding_all decide,
   timeResolver_unresolved_fatal.2 cycleBatch cycleBatch
     (by with_unfolding_all decide) (by with_unfolding_all decide) cycleBatch
     (by with_unfolding_all decide) (by with_unfolding_all decide)⟩

/-! ## Time Extender (`02_reconcileKeyframes_expandTime.ts`) -/

/-- The JS `number` domain as the time extender distinguishes it: a finite
value, `NaN`, or an infinity.  (`isValidTime` only separates finite from
non-finite, so the two infinities and `NaN` behave identically here.) -/
inductive JSNum
  | num (value : ℚ)
  | nan
  | inf
  | negInf
deriving DecidableEq, Repr

/-- `isValidTime`: `!isNaN(time) && isFinite(time)`. -/
def isValidTime : JSNum → Bool
  | .num _ => true
  | _ => false

/-- The fallback of the invalid branch: `isValidTime(t) ? t : d`. -/
def numOr (t : JSNum) (d : ℚ) : ℚ :=
  match t with
  | .num q => q
  | _ => d

/-- The result of `extendSingleKeyframe`: the extended window plus the two
`console.warn` diagnostics, modelled as flags (`invalidWarned` for the
invalid-time warning, `correctedWarned` for the end-before-start
correction warning). -/
structure ExtendedWindow where
  startTime : ℚ
  endTime : ℚ
  invalidWarned : Bool
  correctedWarned : Bool
deriving DecidableEq, Repr

/-- `extendSingleKeyframe` (`02_reconcileKeyframes_expandTime.ts` lines
36-63): non-finite bounds fall back per-bound (`startTime` to 0, `endTime`
to `max(safeStartTime, 0)`); with both bounds finite, `endTime` is clamped
up to `startTime`, warning when a correction was needed. -/
def extendSingleKeyframe (startTime endTime : JSNum) : ExtendedWindow :=
  if !isValidTime startTime || !isValidTime endTime then
    let safeStartTime := numOr startTime 0
    let safeEndTime := numOr endTime (max safeStartTime 0)
    ⟨safeStartTime, safeEndTime, true, false⟩
  else
    let s := numOr startTime 0
    let e := numOr endTime 0
    ⟨s, max s e, false, decide (e < s)⟩

/-- C4 (code bug): on the window `startTime = NaN`, `endTime = -5` the
extender substitutes `startTime = 0` but keeps the finite negative
`endTime`, returning an extended window with `endTime < startTime` and no
correction warning — contradicting the guaranteed invariant
`endTime ≥ startTime` (and the claimed safe default
`endTime = max(startTime, 0)`).  With both bounds finite the guarantee
does hold: the second conjunct records the clamping behaviour on finite
windows. -/
theorem timeExtender_nonfinite_violates_invariant :
    (extendSingleKeyframe .nan (.num (-5)) = ⟨0, -5, true, false⟩ ∧
      (extendSingleKeyframe .nan (.num (-5))).endTime <
        (extendSingleKeyframe .nan (.num (-5))).startTime) ∧
    ∀ s e : ℚ,
      (extendSingleKeyframe (.num s) (.num e)).startTime = s ∧
      (extendSingleKeyframe (.num s) (.num e)).endTime = max s e ∧
      (extendSingleKeyframe (.num s) (.num e)).startTime ≤
        (extendSingleKeyframe (.num s) (.num e)).endTime ∧
      (extendSingleKeyframe (.num s) (.num e)).correctedWarned = decide (e < s) := by
  constructor
  · exact ⟨by with_unfolding_all decide, by with_unfolding_all decide⟩
  · intro s e
    refine ⟨rfl, rfl, ?_, rfl⟩
    exact le_max_left s e

/-! ## State Reconciler (`reconcile_animationState.ts`)

The two transcendental math-library helpers are abstracted: `fromEuler`
stands for `createQuaternionFromEuler` (degrees-to-quaternion conversion,
`Quaternion.setFromEuler` after degree/radian scaling) and `slerp` for
`Quaternion.slerp` as a pure function `slerp previous target t`.  Every
definition below takes them as parameters, so the theorems hold for the
actual trigonometric implementations.  The source's `t === 0` early
return in `Quaternion.slerp` justifies the `slerp a b 0 = a` hypothesis
used where a claim needs it. -/

/-- `type_sceneObject_marker_withParent`: a marker's local position, local
rotation and owning parent (identified by `parent.sceneModelID`). -/
structure MarkerValue where
  position : Vector3
  rotation : EulerS
  parentID : String
deriving DecidableEq, Repr

/-- `type_keyframe_position`. -/
inductive PositionSpec
  | absolute (value : Vector3)
  | relative (value : Vector3)
  | marker (value : MarkerValue)
deriving DecidableEq, Repr

/-- `type_keyframe_rotation`. -/
inductive RotationSpec
  | absolute (value : EulerS)
  | relative (value : EulerS)
  | worldSpace (value : EulerS)
deriving DecidableEq, Repr

/-- The fields of `type_keyframe_model` the state reconciler reads
(`chapter`, `duration` and `time` are not consulted once the windows are
resolved). -/
structure ModelKeyframe where
  id : String
  sceneModelID : String
  opacity : Option ℚ
  position : Option PositionSpec
  rotation : Option RotationSpec
deriving DecidableEq, Repr

/-- `type_keyframes_reconciledTimeExtended_model`. -/
structure ExtendedModelKeyframe where
  reconciled : ReconciledTime
  extended : ReconciledTime
  keyframe : ModelKeyframe
deriving DecidableEq, Repr

/-- `ModelAnimationState3D`. -/
structure ModelAnimationState3D where
  opacity : ℚ
  position : Vector3
  rotation : Quaternion
  cumulativeModelRotation : Quaternion
deriving DecidableEq, Repr

/-- The lazily-created default state: opacity 0, origin, identity rotations. -/
def defaultModelState : ModelAnimationState3D :=
  ⟨0, Vector3.zero, Quaternion.identity, Quaternion.identity⟩

/-- The camera fields of `type_keyframe_camera` the reconciler reads. -/
structure CameraKeyframe where
  id : String
  rotationX : ℚ
  rotationY : ℚ
  target : Vector3
  zoom : ℚ
deriving DecidableEq, Repr

/-- `type_keyframes_reconciledTimeExtended_camera`. -/
structure ExtendedCameraKeyframe where
  reconciled : ReconciledTime
  extended : ReconciledTime
  keyframe : CameraKeyframe
deriving DecidableEq, Repr

/-- `CameraAnimationState3D`. -/
structure CameraAnimationState3D where
  rotationX : ℚ
  rotationY : ℚ
  target : Vector3
  zoom : ℚ
deriving DecidableEq, Repr

/-- `defaultCameraState`. -/
def defaultCameraState : CameraAnimationState3D := ⟨0, 0, Vector3.zero, 1⟩

/-- `type_separatedKeyframes_extended`. -/
structure SeparatedKeyframesExtended where
  modelKeyframes : List ExtendedModelKeyframe
  cameraKeyframes : List ExtendedCameraKeyframe
deriving DecidableEq, Repr

/-- The result pair of `processRotation`. -/
structure RotationResult where
  nextRotation : Quaternion
  nextCumulativeRotation : Quaternion
deriving DecidableEq, Repr

/-- `processRotation` (`reconcile_animationState.ts` lines 200-239).
`absolute`: both targets are the converted quaternion, both slerped;
`relative`: both targets post-multiply the relative quaternion, both
slerped; `worldSpace`: the visual target pre-multiplies
(`worldQuat * previous`) and is slerped, while the cumulative target is
the previous cumulative itself, assigned without blending. -/
def processRotation (fromEuler : EulerS → Quaternion)
    (slerp : Quaternion → Quaternion → ℚ → Quaternion)
    (rotationInfo : RotationSpec)
    (previousRotation previousCumulativeRotation : Quaternion)
    (progression : ℚ) : RotationResult :=
  match rotationInfo with
  | .absolute value =>
    let baseQuat := fromEuler value
    ⟨slerp previousRotation baseQuat progression,
     slerp previousCumulativeRotation baseQuat progression⟩
  | .relative value =>
    let relativeQuat := fromEuler value
    ⟨slerp previousRotation (Quaternion.mul previousRotation relativeQuat) progression,
     slerp previousCumulativeRotation
       (Quaternion.mul previousCumulativeRotation relativeQuat) progression⟩
  | .worldSpace value =>
    let worldQuat := fromEuler value
    ⟨slerp previousRotation (Quaternion.mul worldQuat previousRotation) progression,
     previousCumulativeRotation⟩

/-- `processPosition` (lines 244-262): `relative` adds the delta to the
previous position, `absolute` takes the value directly, in both cases
lerping from the previous position; a `marker` spec falls to the `default`
branch returning the previous position (the caller routes markers to
`calculateMarkerTransform` instead). -/
def processPosition (positionInfo : PositionSpec) (previousPosition : Vector3)
    (progression : ℚ) : Vector3 :=
  match positionInfo with
  | .relative value =>
    previousPosition.lerp (previousPosition.add value) progression
  | .absolute value =>
    previousPosition.lerp value progression
  | .marker _ => previousPosition

/-- The record returned by `_calculateMarkerTransform`. -/
structure MarkerTransform where
  finalPosition : Vector3
  finalRotation : Quaternion
  finalCumulativeRotation : Quaternion
  finalOpacity : ℚ
deriving DecidableEq, Repr

/-- Errors thrown by the state reconciler: a marker referencing a parent with
no computed state, and the (unreachable) missing-own-state guard. -/
inductive ReconcileError
  | missingParentState
  | modelStateNotFound
deriving DecidableEq, Repr

/-- `_calculateMarkerTransform` (lines 267-308): world offset is the marker's
local position rotated by the parent's cumulative rotation; the position
target is `parentPosition + offset`, lerped from the previous position;
the rotation target is `parentCumulativeRotation * markerLocalRotation`,
slerped for both the visual and the cumulative rotation; the opacity is
`min(previousOpacity, parentOpacity)`. -/
def calculateMarkerTransform (fromEuler : EulerS → Quaternion)
    (slerp : Quaternion → Quaternion → ℚ → Quaternion)
    (markerData : MarkerValue) (parentState : Option ModelAnimationState3D)
    (previousState : ModelAnimationState3D) (progression : ℚ) :
    Except ReconcileError MarkerTransform :=
  match parentState with
  | none => .error .missingParentState
  | some parent =>
    let parentPosition := parent.position
    let parentRotation := parent.cumulativeModelRotation
    let parentOpacity := parent.opacity
    let markerWorldOffset := markerData.position.applyQuaternion parentRotation
    let endPositionWorld := parentPosition.add markerWorldOffset
    let finalPosition := previousState.position.lerp endPositionWorld progression
    let markerBaseQuat := fromEuler markerData.rotation
    let finalTargetOrientationWorld := Quaternion.mul parentRotation markerBaseQuat
    let finalRotation := slerp previousState.rotation finalTargetOrientationWorld progression
    let finalCumulativeRotation :=
      slerp previousState.cumulativeModelRotation finalTargetOrientationWorld progression
    let finalOpacity := min previousState.opacity parentOpacity
    .ok ⟨finalPosition, finalRotation, finalCumulativeRotation, finalOpacity⟩

/-- The `modelStates` JS `Map`, as an association list in insertion order
(`set` on an existing key updates in place, otherwise appends). -/
abbrev StateMap := List (String × ModelAnimationState3D)

/-- `modelStates.get k`. -/
def mapGet (m : StateMap) (k : String) : Option ModelAnimationState3D :=
  (m.find? (fun p => p.1 == k)).map Prod.snd

/-- `modelStates.set k v`. -/
def mapSet (m : StateMap) (k : String) (v : ModelAnimationState3D) : StateMap :=
  if (m.find? (fun p => p.1 == k)).isSome then
    m.map (fun p => if p.1 == k then (k, v) else p)
  else m ++ [(k, v)]

/-- The model-state initialization loop of `_reconcileModelStates` (lines
317-328): every entity named by a keyframe gets the default state once. -/
def initModelStates (keyframes : List ExtendedModelKeyframe) : StateMap :=
  keyframes.foldl
    (fun m ek =>
      match mapGet m ek.keyframe.sceneModelID with
      | some _ => m
      | none => m ++ [(ek.keyframe.sceneModelID, defaultModelState)])
    []

/-- The progression computation of `_reconcileModelStates` (lines 346-348):
`keyframeProgression = duration <= EPSILON ? 1.0 : (currentTime -
timeStart) / duration`, clamped to `[0, 1]`.  `startTime` is the
reconciled start, `endTime` the extended end. -/
def clampedProgression (startTime endTime currentTime : ℚ) : ℚ :=
  min (max (if endTime - startTime ≤ EPSILON then 1
            else (currentTime - startTime) / (endTime - startTime)) 0) 1

/-- The progression of one keyframe at the query time (lines 346-348: the
reconciled start together with the extended end). -/
def stepProgression (ek : ExtendedModelKeyframe) (currentTime : ℚ) : ℚ :=
  clampedProgression ek.reconciled.startTime ek.extended.endTime currentTime

/-- The `nextOpacity` computation (lines 351-354): present opacity targets
are lerped from the previous opacity by the progression. -/
def nextOpacityOf (previousState : ModelAnimationState3D) (modelKeyframe : ModelKeyframe)
    (progression : ℚ) : ℚ :=
  match modelKeyframe.opacity with
  | none => previousState.opacity
  | some o => lerp previousState.opacity o progression

/-- The `nextRotation`/`nextCumulativeRotation` computation (lines 356-368). -/
def rotationResultOf (fromEuler : EulerS → Quaternion)
    (slerp : Quaternion → Quaternion → ℚ → Quaternion)
    (previousState : ModelAnimationState3D) (modelKeyframe : ModelKeyframe)
    (progression : ℚ) : RotationResult :=
  match modelKeyframe.rotation with
  | none => ⟨previousState.rotation, previousState.cumulativeModelRotation⟩
  | some rotationInfo =>
    processRotation fromEuler slerp rotationInfo previousState.rotation
      previousState.cumulativeModelRotation progression

/-- The body of the model reconciliation loop (lines 331-412) for one
keyframe: interpolate opacity, process the rotation spec, then either the
marker transform (passing the previous state with the freshly interpolated
opacity, and discarding the processed rotation) or the position spec. -/
def reconcileStep (fromEuler : EulerS → Quaternion)
    (slerp : Quaternion → Quaternion → ℚ → Quaternion) (currentTime : ℚ)
    (m : StateMap) (ek : ExtendedModelKeyframe) : Except ReconcileError StateMap :=
  match mapGet m ek.keyframe.sceneModelID with
  | none => .error .modelStateNotFound
  | some previousState =>
    match ek.keyframe.position with
    | some (.marker markerData) =>
      match calculateMarkerTransform fromEuler slerp markerData
          (mapGet m markerData.parentID)
          { previousState with
              opacity := nextOpacityOf previousState ek.keyframe (stepProgression ek currentTime) }
          (stepProgression ek currentTime) with
      | .error e => .error e
      | .ok mt =>
        .ok (mapSet m ek.keyframe.sceneModelID
          ⟨mt.finalOpacity, mt.finalPosition, mt.finalRotation, mt.finalCumulativeRotation⟩)
    | some positionInfo =>
      .ok (mapSet m ek.keyframe.sceneModelID
        ⟨nextOpacityOf previousState ek.keyframe (stepProgression ek currentTime),
         processPosition positionInfo previousState.position (stepProgression ek currentTime),
         (rotationResultOf fromEuler slerp previousState ek.keyframe
           (stepProgression ek currentTime)).nextRotation,
         (rotationResultOf fromEuler slerp previousState ek.keyframe
           (stepProgression ek currentTime)).nextCumulativeRotation⟩)
    | none =>
      .ok (mapSet m ek.keyframe.sceneModelID
        ⟨nextOpacityOf previousState ek.keyframe (stepProgression ek currentTime),
         previousState.position,
         (rotationResultOf fromEuler slerp previousState ek.keyframe
           (stepProgression ek currentTime)).nextRotation,
         (rotationResultOf fromEuler slerp previousState ek.keyframe
           (stepProgression ek currentTime)).nextCumulativeRotation⟩)

/-- `_reconcileModelStates`: initialize every referenced entity, then fold the
reconciliation step over the keyframes in their given order. -/
def reconcileModelStates (fromEuler : EulerS → Quaternion)
    (slerp : Quaternion → Quaternion → ℚ → Quaternion)
    (keyframes : List ExtendedModelKeyframe) (currentTime : ℚ) :
    Except ReconcileError StateMap :=
  keyframes.foldlM (reconcileStep fromEuler slerp currentTime) (initModelStates keyframes)

/-- `cameraStateFromKeyframe`. -/
def cameraStateFromKeyframe (keyframe : CameraKeyframe) : CameraAnimationState3D :=
  ⟨keyframe.rotationX, keyframe.rotationY, keyframe.target, keyframe.zoom⟩

/-- Ordering of camera keyframes by reconciled start (the comparator of
`_reconcileCameraState` line 421). -/
def cameraStartLE (a b : ExtendedCameraKeyframe) : Prop :=
  a.reconciled.startTime ≤ b.reconciled.startTime

instance : DecidableRel cameraStartLE :=
  fun a b => inferInstanceAs (Decidable (_ ≤ _))

instance : IsTotal ExtendedCameraKeyframe cameraStartLE :=
  ⟨fun x y => le_total x.reconciled.startTime y.reconciled.startTime⟩

instance : IsTrans ExtendedCameraKeyframe cameraStartLE :=
  ⟨fun _ _ _ hab hbc => le_trans hab hbc⟩

/-- The blended pose for the keyframe segment containing the query time:
progression over the current keyframe's own window (denominator floored at
`EPSILON`), all four fields linearly interpolated from the previous pose
to the current target. -/
def cameraBlend (prevState targetState : CameraAnimationState3D)
    (startTime endTime currentTime : ℚ) : CameraAnimationState3D :=
  let denom := max (endTime - startTime) EPSILON
  let progression := min (max ((currentTime - startTime) / denom) 0) 1
  ⟨lerp prevState.rotationX targetState.rotationX progression,
   lerp prevState.rotationY targetState.rotationY progression,
   prevState.target.lerp targetState.target progression,
   lerp prevState.zoom targetState.zoom progression⟩

/-- The walk of `_reconcileCameraState` (lines 433-460): `prevState` is the
previous keyframe's target pose (the default pose at the first keyframe);
a query inside the current window (up to `EPSILON` past its end) blends,
a query before the next keyframe's start holds the current target, and
after the last keyframe the last target is held. -/
def cameraWalk (currentTime : ℚ) (prevState : CameraAnimationState3D) :
    List ExtendedCameraKeyframe → CameraAnimationState3D
  | [] => prevState
  | current :: rest =>
    let targetState := cameraStateFromKeyframe current.keyframe
    let startTime := current.reconciled.startTime
    let endTime := current.extended.endTime
    if currentTime ≥ startTime ∧ currentTime ≤ endTime + EPSILON then
      cameraBlend prevState targetState startTime endTime currentTime
    else
      match rest with
      | [] => targetState
      | next :: _ =>
        if currentTime < next.reconciled.startTime then targetState
        else cameraWalk currentTime targetState rest

/-- `_reconcileCameraState` (lines 420-461): sort by reconciled start time,
return the default pose on an empty timeline or before the first
keyframe's start, otherwise walk the sorted keyframes. -/
def reconcileCameraState (keyframes : List ExtendedCameraKeyframe)
    (currentTime : ℚ) : CameraAnimationState3D :=
  match List.insertionSort cameraStartLE keyframes with
  | [] => defaultCameraState
  | first :: rest =>
    if currentTime < first.reconciled.startTime then defaultCameraState
    else cameraWalk currentTime defaultCameraState (first :: rest)

/-- `AnimationSnapshot3D`: the models map and the always-present camera state. -/
structure AnimationSnapshot3D where
  models : StateMap
  camera : CameraAnimationState3D
deriving DecidableEq, Repr

/-- `reconcile_animationState` (lines 470-479). -/
def reconcile_animationState (fromEuler : EulerS → Quaternion)
    (slerp : Quaternion → Quaternion → ℚ → Quaternion)
    (separatedKeyframes : SeparatedKeyframesExtended) (currentTime : ℚ) :
    Except ReconcileError AnimationSnapshot3D :=
  match reconcileModelStates fromEuler slerp separatedKeyframes.modelKeyframes currentTime with
  | .error e => .error e
  | .ok modelStates =>
    .ok ⟨modelStates, reconcileCameraState separatedKeyframes.cameraKeyframes currentTime⟩

/-- C7: the per-keyframe progression is `clamp((currentTime - start) / (end -
start), 0, 1)` over the keyframe's window whenever the window is longer
than the fixed epsilon, and is 1 whenever `end - start` is at most the
epsilon (in particular whenever it is below it), so the division is never
taken for instantaneous keyframes. -/
theorem progression_clamped_spec (startTime endTime currentTime : ℚ) :
    (endTime - startTime ≤ EPSILON →
      clampedProgression startTime endTime currentTime = 1) ∧
    (EPSILON < endTime - startTime →
      clampedProgression startTime endTime currentTime =
        min (max ((currentTime - startTime) / (endTime - startTime)) 0) 1) := by
  constructor
  · intro h
    unfold clampedProgression
    rw [if_pos h]
    simp
  · intro h
    unfold clampedProgression
    rw [if_neg (not_le.mpr h)]

theorem progression_clamped_spec_witness :
    ((5 : ℚ) - 5 ≤ EPSILON ∧ clampedProgression 5 5 7 = 1) ∧
    (EPSILON < (3 : ℚ) - 1 ∧
      clampedProgression 1 3 2 = min (max (((2 : ℚ) - 1) / (3 - 1)) 0) 1) :=
  ⟨⟨by with_unfolding_all decide,
    (progression_clamped_spec 5 5 7).1 (by with_unfolding_all decide)⟩,
   ⟨by with_unfolding_all decide,
    (progression_clamped_spec 1 3 2).2 (by with_unfolding_all decide)⟩⟩

/-- A concrete stand-in for `createQuaternionFromEuler`, agreeing with the
real converter at the sampled angle: 180 degrees about X maps to the
quaternion `(sin 90°, 0, 0, cos 90°) = (1, 0, 0, 0)` exactly. -/
def sampleFromEuler : EulerS → Quaternion :=
  fun e => if e = ⟨180, 0, 0⟩ then ⟨1, 0, 0, 0⟩ else Quaternion.identity

/-- A concrete stand-in for `Quaternion.slerp`, agreeing with the real
implementation at the endpoints it early-returns on (`t = 0` gives the
start, `t = 1` gives the target). -/
def sampleSlerp : Quaternion → Quaternion → ℚ → Quaternion :=
  fun a b t => if t = 0 then a else b

/-- C3 counterexample: at progression 1 a `worldSpace` rotation keyframe
leaves the cumulative rotation at its previous value; it does not jump to
the composed target `v * previousCumulative` (which here differs from the
previous value). -/
theorem worldSpace_cumulative_no_compose :
    (processRotation sampleFromEuler sampleSlerp (.worldSpace ⟨180, 0, 0⟩)
        Quaternion.identity Quaternion.identity 1).nextCumulativeRotation =
      Quaternion.identity ∧
    Quaternion.mul (sampleFromEuler ⟨180, 0, 0⟩) Quaternion.identity ≠
      Quaternion.identity :=
  ⟨by with_unfolding_all decide, by with_unfolding_all decide⟩

/-- C3 (amended): for a `worldSpace` rotation `v`, the visual rotation target
is `v` composed before the current rotation (pre-multiply) and the visual
rotation is interpolated spherically toward it by the progression, while
the `cumulativeRotation` (used only for marker math) is left entirely
unchanged: it is assigned the previous cumulative rotation without
blending, at every progression — `worldSpace` rotations never enter the
cumulative-for-markers rotation. -/
theorem worldSpace_rotation_spec (fromEuler : EulerS → Quaternion)
    (slerp : Quaternion → Quaternion → ℚ → Quaternion) (value : EulerS)
    (previousRotation previousCumulativeRotation : Quaternion) (progression : ℚ) :
    processRotation fromEuler slerp (.worldSpace value) previousRotation
        previousCumulativeRotation progression =
      ⟨slerp previousRotation
        (Quaternion.mul (fromEuler value) previousRotation) progression,
       previousCumulativeRotation⟩ := rfl

/-! ## Map and step lemmas for the model reconciler -/

theorem mapGet_nil (k : String) : mapGet [] k = none := rfl

theorem find?_cons_pos {α : Type} (p : α → Bool) (a : α) (l : List α)
    (h : p a = true) : (a :: l).find? p = some a := by
  rw [List.find?_cons, h]

theorem find?_cons_neg {α : Type} (p : α → Bool) (a : α) (l : List α)
    (h : p a = false) : (a :: l).find? p = l.find? p := by
  rw [List.find?_cons, h]

theorem find?_mapUpdate (m : StateMap) (k : String) (v : ModelAnimationState3D) :
    (m.map (fun p => if p.1 == k then (k, v) else p)).find? (fun p => p.1 == k) =
      (m.find? (fun p => p.1 == k)).map (fun _ => (k, v)) := by
  induction m with
  | nil => rfl
  | cons a rest ih =>
    by_cases ha : (a.1 == k) = true
    · rw [List.map_cons, if_pos ha,
        find?_cons_pos (fun p => p.1 == k) (k, v) _ (by simp),
        find?_cons_pos (fun p => p.1 == k) a rest ha, Option.map_some']
    · rw [List.map_cons, if_neg ha,
        find?_cons_neg (fun p => p.1 == k) a _ (by simpa using ha),
        find?_cons_neg (fun p => p.1 == k) a rest (by simpa using ha), ih]

theorem find?_mapUpdate_other (m : StateMap) (k other : String)
    (v : ModelAnimationState3D) (hne : other ≠ k) :
    (m.map (fun p => if p.1 == k then (k, v) else p)).find? (fun p => p.1 == other) =
      m.find? (fun p => p.1 == other) := by
  induction m with
  | nil => rfl
  | cons a rest ih =>
    by_cases ha : (a.1 == k) = true
    · have hak : a.1 = k := by simpa using ha
      have hso : ((k, v).1 == other) = false := by
        simp only [beq_eq_false_iff_ne, ne_eq]
        exact fun hko => hne hko.symm
      have hao : (a.1 == other) = false := by
        rw [hak]
        simpa using hso
      rw [List.map_cons, if_pos ha,
        find?_cons_neg (fun p => p.1 == other) (k, v) _ hso,
        find?_cons_neg (fun p => p.1 == other) a rest hao, ih]
    · by_cases hao : (a.1 == other) = true
      · rw [List.map_cons, if_neg ha,
          find?_cons_pos (fun p => p.1 == other) a _ hao,
          find?_cons_pos (fun p => p.1 == other) a rest hao]
      · rw [List.map_cons, if_neg ha,
          find?_cons_neg (fun p => p.1 == other) a _ (by simpa using hao),
          find?_cons_neg (fun p => p.1 == other) a rest (by simpa using hao), ih]

theorem mapGet_mapSet_self {m : StateMap} {k : String} {w v : ModelAnimationState3D}
    (h : mapGet m k = some w) : mapGet (mapSet m k v) k = some v := by
  have hsome : (m.find? (fun p => p.1 == k)).isSome := by
    unfold mapGet at h
    cases hf : m.find? (fun p => p.1 == k) with
    | none => rw [hf] at h; simp at h
    | some a => simp [hf]
  unfold mapSet
  rw [if_pos hsome]
  unfold mapGet at h ⊢
  rw [find?_mapUpdate]
  cases hf : m.find? (fun p => p.1 == k) with
  | none => rw [hf] at h; simp at h
  | some a => simp

theorem mapGet_mapSet_other {m : StateMap} {k other : String} {v : ModelAnimationState3D}
    (hne : other ≠ k) : mapGet (mapSet m k v) other = mapGet m other := by
  unfold mapSet
  by_cases hsome : (m.find? (fun p => p.1 == k)).isSome
  · rw [if_pos hsome]
    unfold mapGet
    rw [find?_mapUpdate_other m k other v hne]
  · rw [if_neg hsome]
    unfold mapGet
    rw [List.find?_append]
    cases hf : m.find? (fun p => p.1 == other) with
    | some a => simp
    | none =>
      have : ((k, v).1 == other) = false := by
        simp only [beq_eq_false_iff_ne, ne_eq]
        exact fun hko => hne hko.symm
      simp [List.find?, this]

/-- The world-space marker target position of the claim: `parentPosition +
(markerLocalPosition rotated by the parent's cumulative rotation)`. -/
def markerTargetPosition (parent : ModelAnimationState3D) (markerData : MarkerValue) : Vector3 :=
  parent.position.add (markerData.position.applyQuaternion parent.cumulativeModelRotation)

/-- The marker target orientation of the claim: the parent's cumulative
rotation composed with the marker's local rotation. -/
def markerTargetOrientation (fromEuler : EulerS → Quaternion)
    (parent : ModelAnimationState3D) (markerData : MarkerValue) : Quaternion :=
  Quaternion.mul parent.cumulativeModelRotation (fromEuler markerData.rotation)

theorem calculateMarkerTransform_some (fromEuler : EulerS → Quaternion)
    (slerp : Quaternion → Quaternion → ℚ → Quaternion) (markerData : MarkerValue)
    (parent previousState : ModelAnimationState3D) (progression : ℚ) :
    calculateMarkerTransform fromEuler slerp markerData (some parent)
        previousState progression =
      .ok ⟨previousState.position.lerp (markerTargetPosition parent markerData) progression,
           slerp previousState.rotation
             (markerTargetOrientation fromEuler parent markerData) progression,
           slerp previousState.cumulativeModelRotation
             (markerTargetOrientation fromEuler parent markerData) progression,
           min previousState.opacity parent.opacity⟩ := rfl

theorem calculateMarkerTransform_noParent (fromEuler : EulerS → Quaternion)
    (slerp : Quaternion → Quaternion → ℚ → Quaternion) (markerData : MarkerValue)
    (previousState : ModelAnimationState3D) (progression : ℚ) :
    calculateMarkerTransform fromEuler slerp markerData none previousState progression =
      .error .missingParentState := rfl

theorem reconcileStep_noState {fromEuler : EulerS → Quaternion}
    {slerp : Quaternion → Quaternion → ℚ → Quaternion} {currentTime : ℚ}
    {m : StateMap} {ek : ExtendedModelKeyframe}
    (hget : mapGet m ek.keyframe.sceneModelID = none) :
    reconcileStep fromEuler slerp currentTime m ek = .error .modelStateNotFound := by
  simp only [reconcileStep, hget]

theorem reconcileStep_marker_ok {fromEuler : EulerS → Quaternion}
    {slerp : Quaternion → Quaternion → ℚ → Quaternion} {currentTime : ℚ}
    {m : StateMap} {ek : ExtendedModelKeyframe}
    {previousState : ModelAnimationState3D} {markerData : MarkerValue}
    {mt : MarkerTransform}
    (hget : mapGet m ek.keyframe.sceneModelID = some previousState)
    (hpos : ek.keyframe.position = some (.marker markerData))
    (hmt : calculateMarkerTransform fromEuler slerp markerData
      (mapGet m markerData.parentID)
      { previousState with
          opacity := nextOpacityOf previousState ek.keyframe (stepProgression ek currentTime) }
      (stepProgression ek currentTime) = .ok mt) :
    reconcileStep fromEuler slerp currentTime m ek =
      .ok (mapSet m ek.keyframe.sceneModelID
        ⟨mt.finalOpacity, mt.finalPosition, mt.finalRotation, mt.finalCumulativeRotation⟩) := by
  simp only [reconcileStep, hget, hpos, hmt]

theorem reconcileStep_marker_error {fromEuler : EulerS → Quaternion}
    {slerp : Quaternion → Quaternion → ℚ → Quaternion} {currentTime : ℚ}
    {m : StateMap} {ek : ExtendedModelKeyframe}
    {previousState : ModelAnimationState3D} {markerData : MarkerValue}
    {e : ReconcileError}
    (hget : mapGet m ek.keyframe.sceneModelID = some previousState)
    (hpos : ek.keyframe.position = some (.marker markerData))
    (hmt : calculateMarkerTransform fromEuler slerp markerData
      (mapGet m markerData.parentID)
      { previousState with
          opacity := nextOpacityOf previousState ek.keyframe (stepProgression ek currentTime) }
      (stepProgression ek currentTime) = .error e) :
    reconcileStep fromEuler slerp currentTime m ek = .error e := by
  simp only [reconcileStep, hget, hpos, hmt]

theorem reconcileStep_posAbsolute {fromEuler : EulerS → Quaternion}
    {slerp : Quaternion → Quaternion → ℚ → Quaternion} {currentTime : ℚ}
    {m : StateMap} {ek : ExtendedModelKeyframe}
    {previousState : ModelAnimationState3D} {value : Vector3}
    (hget : mapGet m ek.keyframe.sceneModelID = some previousState)
    (hpos : ek.keyframe.position = some (.absolute value)) :
    reconcileStep fromEuler slerp currentTime m ek =
      .ok (mapSet m ek.keyframe.sceneModelID
        ⟨nextOpacityOf previousState ek.keyframe (stepProgression ek currentTime),
         processPosition (.absolute value) previousState.position (stepProgression ek currentTime),
         (rotationResultOf fromEuler slerp previousState ek.keyframe
           (stepProgression ek currentTime)).nextRotation,
         (rotationResultOf fromEuler slerp previousState ek.keyframe
           (stepProgression ek currentTime)).nextCumulativeRotation⟩) := by
  simp only [reconcileStep, hget, hpos]

theorem reconcileStep_posRelative {fromEuler : EulerS → Quaternion}
    {slerp : Quaternion → Quaternion → ℚ → Quaternion} {currentTime : ℚ}
    {m : StateMap} {ek : ExtendedModelKeyframe}
    {previousState : ModelAnimationState3D} {value : Vector3}
    (hget : mapGet m ek.keyframe.sceneModelID = some previousState)
    (hpos : ek.keyframe.position = some (.relative value)) :
    reconcileStep fromEuler slerp currentTime m ek =
      .ok (mapSet m ek.keyframe.sceneModelID
        ⟨nextOpacityOf previousState ek.keyframe (stepProgression ek currentTime),
         processPosition (.relative value) previousState.position (stepProgression ek currentTime),
         (rotationResultOf fromEuler slerp previousState ek.keyframe
           (stepProgression ek currentTime)).nextRotation,
         (rotationResultOf fromEuler slerp previousState ek.keyframe
           (stepProgression ek currentTime)).nextCumulativeRotation⟩) := by
  simp only [reconcileStep, hget, hpos]

theorem reconcileStep_posNone {fromEuler : EulerS → Quaternion}
    {slerp : Quaternion → Quaternion → ℚ → Quaternion} {currentTime : ℚ}
    {m : StateMap} {ek : ExtendedModelKeyframe}
    {previousState : ModelAnimationState3D}
    (hget : mapGet m ek.keyframe.sceneModelID = some previousState)
    (hpos : ek.keyframe.position = none) :
    reconcileStep fromEuler slerp currentTime m ek =
      .ok (mapSet m ek.keyframe.sceneModelID
        ⟨nextOpacityOf previousState ek.keyframe (stepProgression ek currentTime),
         previousState.position,
         (rotationResultOf fromEuler slerp previousState ek.keyframe
           (stepProgression ek currentTime)).nextRotation,
         (rotationResultOf fromEuler slerp previousState ek.keyframe
           (stepProgression ek currentTime)).nextCumulativeRotation⟩) := by
  simp only [reconcileStep, hget, hpos]

theorem exceptBind_ok {ε α β : Type} {a : Except ε α} {f : α → Except ε β} {c : β}
    (h : (a >>= f) = .ok c) : ∃ b, a = .ok b ∧ f b = .ok c := by
  cases a with
  | error e => exact absurd h (by simp [Bind.bind, Except.bind])
  | ok b => exact ⟨b, rfl, by simpa [Bind.bind, Except.bind] using h⟩

/-- A reconciliation step only rewrites the state of the keyframe's own
entity. -/
theorem reconcileStep_mapGet_other {fromEuler : EulerS → Quaternion}
    {slerp : Quaternion → Quaternion → ℚ → Quaternion} {currentTime : ℚ}
    {m m2 : StateMap} {ek : ExtendedModelKeyframe} {x : String}
    (h : reconcileStep fromEuler slerp currentTime m ek = .ok m2)
    (hx : x ≠ ek.keyframe.sceneModelID) : mapGet m2 x = mapGet m x := by
  cases hget : mapGet m ek.keyframe.sceneModelID with
  | none => rw [reconcileStep_noState hget] at h; exact absurd h (by simp)
  | some previousState =>
    cases hpos : ek.keyframe.position with
    | none =>
      rw [reconcileStep_posNone hget hpos] at h
      cases h
      exact mapGet_mapSet_other hx
    | some positionInfo =>
      cases positionInfo with
      | absolute value =>
        rw [reconcileStep_posAbsolute hget hpos] at h
        cases h
        exact mapGet_mapSet_other hx
      | relative value =>
        rw [reconcileStep_posRelative hget hpos] at h
        cases h
        exact mapGet_mapSet_other hx
      | marker markerData =>
        cases hmt : calculateMarkerTransform fromEuler slerp markerData
            (mapGet m markerData.parentID)
            { previousState with
                opacity := nextOpacityOf previousState ek.keyframe
                  (stepProgression ek currentTime) }
            (stepProgression ek currentTime) with
        | error e => rw [reconcileStep_marker_error hget hpos hmt] at h; exact absurd h (by simp)
        | ok mt =>
          rw [reconcileStep_marker_ok hget hpos hmt] at h
          cases h
          exact mapGet_mapSet_other hx

/-- Folding steps over keyframes that never mention entity `x` leaves `x`'s
state untouched. -/
theorem foldlM_preserves_other {fromEuler : EulerS → Quaternion}
    {slerp : Quaternion → Quaternion → ℚ → Quaternion} {currentTime : ℚ} {x : String} :
    ∀ (post : List ExtendedModelKeyframe) (m states : StateMap),
    List.foldlM (reconcileStep fromEuler slerp currentTime) m post = .ok states →
    (∀ kf2 ∈ post, x ≠ kf2.keyframe.sceneModelID) →
    mapGet states x = mapGet m x := by
  intro post
  induction post with
  | nil =>
    intro m states h hx
    rw [List.foldlM_nil] at h
    cases h
    rfl
  | cons kf rest ih =>
    intro m states h hx
    rw [List.foldlM_cons] at h
    obtain ⟨m2, hm2, hrest⟩ := exceptBind_ok h
    rw [ih m2 states hrest (fun kf2 hk => hx kf2 (List.mem_cons_of_mem kf hk)),
      reconcileStep_mapGet_other hm2 (hx kf (List.mem_cons_self kf rest))]

/-- C2: for every keyframe positioned by a marker reference, the
reconciliation step reads the already-computed state of the referenced
parent entity and produces the state whose position lerps from the
entity's current position toward `parentPosition + (markerLocalPosition
rotated by parentCumulativeRotation)`, whose rotations slerp toward
`parentCumulativeRotation * markerLocalRotation`, and whose opacity is the
minimum of the entity's own interpolated opacity and the parent's opacity
— hence at most the parent's opacity.  When the marker keyframe is the
entity's last and the parent is not touched afterwards (the dependency
sorter guarantees both), the snapshot opacity of the child is at most the
snapshot opacity of the parent. -/
theorem marker_keyframe_spec (fromEuler : EulerS → Quaternion)
    (slerp : Quaternion → Quaternion → ℚ → Quaternion)
    (kfs pre post : List ExtendedModelKeyframe) (mk : ExtendedModelKeyframe)
    (markerData : MarkerValue) (currentTime : ℚ) (states : StateMap)
    (hsplit : kfs = pre ++ mk :: post)
    (hmarker : mk.keyframe.position = some (.marker markerData))
    (hok : reconcileModelStates fromEuler slerp kfs currentTime = .ok states) :
    ∃ m1 parent previousState m2,
      List.foldlM (reconcileStep fromEuler slerp currentTime) (initModelStates kfs) pre =
        .ok m1 ∧
      mapGet m1 markerData.parentID = some parent ∧
      mapGet m1 mk.keyframe.sceneModelID = some previousState ∧
      reconcileStep fromEuler slerp currentTime m1 mk = .ok m2 ∧
      mapGet m2 mk.keyframe.sceneModelID = some
        ⟨min (nextOpacityOf previousState mk.keyframe (stepProgression mk currentTime))
           parent.opacity,
         previousState.position.lerp (markerTargetPosition parent markerData)
           (stepProgression mk currentTime),
         slerp previousState.rotation (markerTargetOrientation fromEuler parent markerData)
           (stepProgression mk currentTime),
         slerp previousState.cumulativeModelRotation
           (markerTargetOrientation fromEuler parent markerData)
           (stepProgression mk currentTime)⟩ ∧
      min (nextOpacityOf previousState mk.keyframe (stepProgression mk currentTime))
        parent.opacity ≤ parent.opacity ∧
      ((∀ kf2 ∈ post, kf2.keyframe.sceneModelID ≠ mk.keyframe.sceneModelID ∧
          kf2.keyframe.sceneModelID ≠ markerData.parentID) →
        ∃ childState parentFinal,
          mapGet states mk.keyframe.sceneModelID = some childState ∧
          mapGet states markerData.parentID = some parentFinal ∧
          childState.opacity ≤ parentFinal.opacity) := by
  subst hsplit
  unfold reconcileModelStates at hok
  rw [List.foldlM_append] at hok
  obtain ⟨m1, hm1, hrest⟩ := exceptBind_ok hok
  rw [List.foldlM_cons] at hrest
  obtain ⟨m2, hm2, hpost⟩ := exceptBind_ok hrest
  cases hget : mapGet m1 mk.keyframe.sceneModelID with
  | none => rw [reconcileStep_noState hget] at hm2; exact absurd hm2 (by simp)
  | some previousState =>
    cases hparent : mapGet m1 markerData.parentID with
    | none =>
      rw [reconcileStep_marker_error hget hmarker
        (by rw [hparent]; exact calculateMarkerTransform_noParent _ _ _ _ _)] at hm2
      exact absurd hm2 (by simp)
    | some parent =>
      have hmt : calculateMarkerTransform fromEuler slerp markerData
          (mapGet m1 markerData.parentID)
          { previousState with
              opacity := nextOpacityOf previousState mk.keyframe
                (stepProgression mk currentTime) }
          (stepProgression mk currentTime) =
          .ok ⟨previousState.position.lerp (markerTargetPosition parent markerData)
                 (stepProgression mk currentTime),
               slerp previousState.rotation
                 (markerTargetOrientation fromEuler parent markerData)
                 (stepProgression mk currentTime),
               slerp previousState.cumulativeModelRotation
                 (markerTargetOrientation fromEuler parent markerData)
                 (stepProgression mk currentTime),
               min (nextOpacityOf previousState mk.keyframe (stepProgression mk currentTime))
                 parent.opacity⟩ := by
        rw [hparent]
        exact calculateMarkerTransform_some _ _ _ _ _ _
      have hstep := reconcileStep_marker_ok hget hmarker hmt
      rw [hstep] at hm2
      cases hm2
      refine ⟨m1, parent, previousState, _, hm1, hparent, hget, hstep, ?_, min_le_right _ _, ?_⟩
      · exact mapGet_mapSet_self hget
      · intro hpostids
        have hchild : mapGet states mk.keyframe.sceneModelID =
            mapGet (mapSet m1 mk.keyframe.sceneModelID
              ⟨min (nextOpacityOf previousState mk.keyframe (stepProgression mk currentTime))
                 parent.opacity,
               previousState.position.lerp (markerTargetPosition parent markerData)
                 (stepProgression mk currentTime),
               slerp previousState.rotation
                 (markerTargetOrientation fromEuler parent markerData)
                 (stepProgression mk currentTime),
               slerp previousState.cumulativeModelRotation
                 (markerTargetOrientation fromEuler parent markerData)
                 (stepProgression mk currentTime)⟩) mk.keyframe.sceneModelID :=
          foldlM_preserves_other post _ states hpost
            (fun kf2 hk => Ne.symm (hpostids kf2 hk).1)
        by_cases hpc : markerData.parentID = mk.keyframe.sceneModelID
        · refine ⟨_, _, hchild.trans (mapGet_mapSet_self hget), ?_, le_refl _⟩
          rw [hpc]
          exact hchild.trans (mapGet_mapSet_self hget)
        · have hparfinal : mapGet states markerData.parentID = some parent := by
            rw [foldlM_preserves_other post _ states hpost
              (fun kf2 hk => fun heq => (hpostids kf2 hk).2 heq.symm),
              mapGet_mapSet_other hpc, hparent]
          refine ⟨_, parent, hchild.trans (mapGet_mapSet_self hget), hparfinal, ?_⟩
          exact min_le_right _ _

/-- The parent keyframe of the concrete marker scenario (the repo's own
`should handle marker positioning` test): parent moves to `(10,0,0)` over
`[0,2]`. -/
def demoParentKf : ExtendedModelKeyframe :=
  ⟨⟨0, 2⟩, ⟨0, 2⟩, ⟨"pm", "parent", none, some (.absolute ⟨10, 0, 0⟩), none⟩⟩

/-- Marker with local offset `(0,5,0)`, local rotation zero, parent `parent`. -/
def demoMarker : MarkerValue := ⟨⟨0, 5, 0⟩, ⟨0, 0, 0⟩, "parent"⟩

/-- The marker-attached child keyframe over the same window. -/
def demoChildKf : ExtendedModelKeyframe :=
  ⟨⟨0, 2⟩, ⟨0, 2⟩, ⟨"ca", "child", none, some (.marker demoMarker), none⟩⟩

def demoModelKfs : List ExtendedModelKeyframe := [demoParentKf, demoChildKf]

/-- The snapshot of `demoModelKfs` at time 2: the child ends at `(10,5,0)`,
the parent's position plus the marker offset. -/
def demoStates : StateMap :=
  [("parent", ⟨0, ⟨10, 0, 0⟩, Quaternion.identity, Quaternion.identity⟩),
   ("child", ⟨0, ⟨10, 5, 0⟩, Quaternion.identity, Quaternion.identity⟩)]

theorem marker_keyframe_spec_witness :
    reconcileModelStates sampleFromEuler sampleSlerp demoModelKfs 2 = .ok demoStates ∧
    demoChildKf.keyframe.position = some (.marker demoMarker) ∧
    (∃ m1 parent previousState m2,
      List.foldlM (reconcileStep sampleFromEuler sampleSlerp 2) (initModelStates demoModelKfs)
        [demoParentKf] = .ok m1 ∧
      mapGet m1 demoMarker.parentID = some parent ∧
      mapGet m1 demoChildKf.keyframe.sceneModelID = some previousState ∧
      reconcileStep sampleFromEuler sampleSlerp 2 m1 demoChildKf = .ok m2 ∧
      mapGet m2 demoChildKf.keyframe.sceneModelID = some
        ⟨min (nextOpacityOf previousState demoChildKf.keyframe (stepProgression demoChildKf 2))
           parent.opacity,
         previousState.position.lerp (markerTargetPosition parent demoMarker)
           (stepProgression demoChildKf 2),
         sampleSlerp previousState.rotation
           (markerTargetOrientation sampleFromEuler parent demoMarker)
           (stepProgression demoChildKf 2),
         sampleSlerp previousState.cumulativeModelRotation
           (markerTargetOrientation sampleFromEuler parent demoMarker)
           (stepProgression demoChildKf 2)⟩ ∧
      min (nextOpacityOf previousState demoChildKf.keyframe (stepProgression demoChildKf 2))
        parent.opacity ≤ parent.opacity ∧
      ((∀ kf2 ∈ ([] : List ExtendedModelKeyframe),
          kf2.keyframe.sceneModelID ≠ demoChildKf.keyframe.sceneModelID ∧
          kf2.keyframe.sceneModelID ≠ demoMarker.parentID) →
        ∃ childState parentFinal,
          mapGet demoStates demoChildKf.keyframe.sceneModelID = some childState ∧
          mapGet demoStates demoMarker.parentID = some parentFinal ∧
          childState.opacity ≤ parentFinal.opacity)) :=
  ⟨by with_unfolding_all decide, rfl,
   marker_keyframe_spec sampleFromEuler sampleSlerp demoModelKfs [demoParentKf] []
     demoChildKf demoMarker 2 demoStates rfl rfl (by with_unfolding_all decide)⟩

/-! ## Default state at query times before all keyframes (C9, C10) -/

theorem lerp_zero (s e : ℚ) : lerp s e 0 = s := by simp [lerp]

theorem vector3_lerp_zero (a b : Vector3) : a.lerp b 0 = a := by
  cases a
  simp [Vector3.lerp]

theorem nextOpacityOf_zero (previousState : ModelAnimationState3D)
    (modelKeyframe : ModelKeyframe) :
    nextOpacityOf previousState modelKeyframe 0 = previousState.opacity := by
  cases hkf : modelKeyframe.opacity <;> simp [nextOpacityOf, hkf, lerp]

theorem processPosition_zero (positionInfo : PositionSpec) (previousPosition : Vector3) :
    processPosition positionInfo previousPosition 0 = previousPosition := by
  cases positionInfo <;> simp [processPosition, vector3_lerp_zero]

theorem rotationResultOf_zero (fromEuler : EulerS → Quaternion)
    (slerp : Quaternion → Quaternion → ℚ → Quaternion)
    (previousState : ModelAnimationState3D) (modelKeyframe : ModelKeyframe)
    (h0 : ∀ a b, slerp a b 0 = a) :
    rotationResultOf fromEuler slerp previousState modelKeyframe 0 =
      ⟨previousState.rotation, previousState.cumulativeModelRotation⟩ := by
  cases hr : modelKeyframe.rotation with
  | none => simp [rotationResultOf, hr]
  | some rotationInfo =>
    cases rotationInfo <;> simp [rotationResultOf, hr, processRotation, h0]

/-- A query before the keyframe's start with a window longer than the epsilon
gives progression 0. -/
theorem clampedProgression_of_before (startTime endTime currentTime : ℚ)
    (hbefore : currentTime < startTime) (hlong : EPSILON < endTime - startTime) :
    clampedProgression startTime endTime currentTime = 0 := by
  unfold clampedProgression
  rw [if_neg (not_le.mpr hlong)]
  have hnum : currentTime - startTime < 0 := by linarith
  have hden : (0 : ℚ) < endTime - startTime := by
    have heps : (0 : ℚ) < EPSILON := by norm_num [EPSILON]
    linarith
  have hq : (currentTime - startTime) / (endTime - startTime) < 0 :=
    div_neg_of_neg_of_pos hnum hden
  have hmax : max ((currentTime - startTime) / (endTime - startTime)) 0 = 0 :=
    max_eq_right (le_of_lt hq)
  rw [hmax]
  exact min_eq_left (by norm_num)

/-- All states of a map are the default. -/
def allDefault (m : StateMap) : Prop :=
  ∀ id st, mapGet m id = some st → st = defaultModelState

theorem mapSet_default_preserves {m : StateMap} {k : String} {w : ModelAnimationState3D}
    (hget : mapGet m k = some w) (hinv : allDefault m) :
    allDefault (mapSet m k defaultModelState) := by
  intro id st hst
  by_cases hid : id = k
  · subst hid
    rw [mapGet_mapSet_self hget] at hst
    cases hst
    rfl
  · rw [mapGet_mapSet_other hid] at hst
    exact hinv id st hst

theorem reconcileStep_zero_preserves_default {fromEuler : EulerS → Quaternion}
    {slerp : Quaternion → Quaternion → ℚ → Quaternion} {currentTime : ℚ}
    {m m2 : StateMap} {ek : ExtendedModelKeyframe}
    (h0 : ∀ a b, slerp a b 0 = a)
    (hprog : stepProgression ek currentTime = 0)
    (hinv : allDefault m)
    (hok : reconcileStep fromEuler slerp currentTime m ek = .ok m2) :
    allDefault m2 := by
  cases hget : mapGet m ek.keyframe.sceneModelID with
  | none => rw [reconcileStep_noState hget] at hok; exact absurd hok (by simp)
  | some previousState =>
    have hdef : previousState = defaultModelState := hinv _ _ hget
    subst hdef
    cases hpos : ek.keyframe.position with
    | none =>
      rw [reconcileStep_posNone hget hpos, hprog, nextOpacityOf_zero,
        rotationResultOf_zero fromEuler slerp _ _ h0] at hok
      cases hok
      exact mapSet_default_preserves hget hinv
    | some positionInfo =>
      cases positionInfo with
      | absolute value =>
        rw [reconcileStep_posAbsolute hget hpos, hprog, nextOpacityOf_zero,
          rotationResultOf_zero fromEuler slerp _ _ h0, processPosition_zero] at hok
        cases hok
        exact mapSet_default_preserves hget hinv
      | relative value =>
        rw [reconcileStep_posRelative hget hpos, hprog, nextOpacityOf_zero,
          rotationResultOf_zero fromEuler slerp _ _ h0, processPosition_zero] at hok
        cases hok
        exact mapSet_default_preserves hget hinv
      | marker markerData =>
        cases hparent : mapGet m markerData.parentID with
        | none =>
          rw [reconcileStep_marker_error hget hpos
            (by rw [hparent]; exact calculateMarkerTransform_noParent _ _ _ _ _)] at hok
          exact absurd hok (by simp)
        | some parent =>
          have hpdef : parent = defaultModelState := hinv _ _ hparent
          subst hpdef
          have hmt : calculateMarkerTransform fromEuler slerp markerData
              (mapGet m markerData.parentID)
              { defaultModelState with
                  opacity := nextOpacityOf defaultModelState ek.keyframe
                    (stepProgression ek currentTime) }
              (stepProgression ek currentTime) =
              .ok ⟨Vector3.lerp defaultModelState.position
                     (markerTargetPosition defaultModelState markerData)
                     (stepProgression ek currentTime),
                   slerp defaultModelState.rotation
                     (markerTargetOrientation fromEuler defaultModelState markerData)
                     (stepProgression ek currentTime),
                   slerp defaultModelState.cumulativeModelRotation
                     (markerTargetOrientation fromEuler defaultModelState markerData)
                     (stepProgression ek currentTime),
                   min (nextOpacityOf defaultModelState ek.keyframe
                     (stepProgression ek currentTime)) defaultModelState.opacity⟩ := by
            rw [hparent]
            with_unfolding_all rfl
          have hstep := reconcileStep_marker_ok hget hpos hmt
          rw [hstep] at hok
          cases hok
          rw [hprog, nextOpacityOf_zero, vector3_lerp_zero, h0, h0]
          have heq :
              (⟨min defaultModelState.opacity defaultModelState.opacity,
                defaultModelState.position, defaultModelState.rotation,
                defaultModelState.cumulativeModelRotation⟩ : ModelAnimationState3D) =
              defaultModelState := by
            rw [min_self]
          rw [heq]
          exact mapSet_default_preserves hget hinv

theorem foldlM_zero_preserves_default {fromEuler : EulerS → Quaternion}
    {slerp : Quaternion → Quaternion → ℚ → Quaternion} {currentTime : ℚ}
    (h0 : ∀ a b, slerp a b 0 = a) :
    ∀ (kfs : List ExtendedModelKeyframe) (m states : StateMap),
    (∀ ek ∈ kfs, stepProgression ek currentTime = 0) → allDefault m →
    List.foldlM (reconcileStep fromEuler slerp currentTime) m kfs = .ok states →
    allDefault states := by
  intro kfs
  induction kfs with
  | nil =>
    intro m states _ hinv h
    rw [List.foldlM_nil] at h
    cases h
    exact hinv
  | cons ek rest ih =>
    intro m states hprog hinv h
    rw [List.foldlM_cons] at h
    obtain ⟨m2, hm2, hrest⟩ := exceptBind_ok h
    exact ih m2 states (fun e he => hprog e (List.mem_cons_of_mem ek he))
      (reconcileStep_zero_preserves_default h0 (hprog ek (List.mem_cons_self ek rest)) hinv hm2)
      hrest

theorem mapGet_append_single {m : StateMap} {k id : String}
    {v st : ModelAnimationState3D}
    (h : mapGet (m ++ [(k, v)]) id = some st) :
    mapGet m id = some st ∨ st = v := by
  unfold mapGet at h
  rw [List.find?_append] at h
  cases hf : m.find? (fun p => p.1 == id) with
  | some a =>
    rw [hf] at h
    left
    unfold mapGet
    rw [hf]
    simpa using h
  | none =>
    rw [hf] at h
    by_cases hk : ((k, v).1 == id) = true
    · rw [show ([(k, v)].find? (fun p => p.1 == id)) = some (k, v) from
        find?_cons_pos _ _ _ hk] at h
      right
      simpa using h.symm
    · rw [show ([(k, v)].find? (fun p => p.1 == id)) = none from by
        rw [find?_cons_neg _ _ _ (by simpa using hk)]; rfl] at h
      simp at h

theorem initModelStates_allDefault (kfs : List ExtendedModelKeyframe) :
    allDefault (initModelStates kfs) := by
  unfold initModelStates
  suffices hgen : ∀ (l : List ExtendedModelKeyframe) (m : StateMap), allDefault m →
      allDefault (l.foldl (fun m ek =>
        match mapGet m ek.keyframe.sceneModelID with
        | some _ => m
        | none => m ++ [(ek.keyframe.sceneModelID, defaultModelState)]) m) by
    exact hgen kfs [] (fun id st h => by simp [mapGet_nil] at h)
  intro l
  induction l with
  | nil => intro m hm; exact hm
  | cons ek rest ih =>
    intro m hm
    simp only [List.foldl_cons]
    cases hget : mapGet m ek.keyframe.sceneModelID with
    | some w => exact ih m hm
    | none =>
      refine ih _ (fun id st h => ?_)
      rcases mapGet_append_single h with h2 | h2
      · exact hm id st h2
      · exact h2

/-- Membership in a sorted camera timeline implies membership in the input. -/
theorem reconcileCameraState_before_first (keyframes : List ExtendedCameraKeyframe)
    (currentTime : ℚ)
    (hcam : ∀ ck ∈ keyframes, currentTime < ck.reconciled.startTime) :
    reconcileCameraState keyframes currentTime = defaultCameraState := by
  unfold reconcileCameraState
  cases hs : List.insertionSort cameraStartLE keyframes with
  | nil => rfl
  | cons first rest =>
    have hfirst : first ∈ keyframes := by
      have : first ∈ List.insertionSort cameraStartLE keyframes := by
        rw [hs]; exact List.mem_cons_self first rest
      exact (List.mem_insertionSort cameraStartLE).mp this
    show (if currentTime < first.reconciled.startTime then defaultCameraState
      else cameraWalk currentTime defaultCameraState (first :: rest)) = defaultCameraState
    rw [if_pos (hcam first hfirst)]

/-- The demo scene of the C9 counterexample: a single instantaneous model
keyframe (window `[5,5]`) targeting opacity 1. -/
def instantScene : SeparatedKeyframesExtended :=
  ⟨[⟨⟨5, 5⟩, ⟨5, 5⟩, ⟨"ik", "m", some 1, none, none⟩⟩], []⟩

/-- C9 counterexample: querying `instantScene` at time 0 — before the only
keyframe's start time 5 — produces opacity 1 for entity `m`, not the
default 0: an instantaneous (duration ≤ EPSILON) keyframe is applied with
progression 1 even before its start. -/
theorem default_before_start_false :
    (0 : ℚ) < 5 ∧
    reconcile_animationState sampleFromEuler sampleSlerp instantScene 0 =
      .ok ⟨[("m", ⟨1, Vector3.zero, Quaternion.identity, Quaternion.identity⟩)],
           defaultCameraState⟩ ∧
    (1 : ℚ) ≠ defaultModelState.opacity :=
  ⟨by norm_num, by with_unfolding_all decide, by with_unfolding_all decide⟩

/-- C9 (amended): provided every model keyframe's window is longer than the
fixed epsilon (no instantaneous keyframes), querying at a time before
every keyframe's start returns the default state: every entity state in
the snapshot is the lazily-created default (opacity 0, origin position,
identity rotations) and the camera is the fixed default pose (the camera
part needs no duration proviso).  The `slerp` hypothesis is the
`t === 0` early return of the source `Quaternion.slerp`. -/
theorem default_state_before_start (fromEuler : EulerS → Quaternion)
    (slerp : Quaternion → Quaternion → ℚ → Quaternion)
    (sep : SeparatedKeyframesExtended) (currentTime : ℚ) (snap : AnimationSnapshot3D)
    (h0 : ∀ a b, slerp a b 0 = a)
    (hmodel : ∀ ek ∈ sep.modelKeyframes, currentTime < ek.reconciled.startTime ∧
      EPSILON < ek.extended.endTime - ek.reconciled.startTime)
    (hcam : ∀ ck ∈ sep.cameraKeyframes, currentTime < ck.reconciled.startTime)
    (hok : reconcile_animationState fromEuler slerp sep currentTime = .ok snap) :
    (∀ id st, mapGet snap.models id = some st → st = defaultModelState) ∧
    snap.camera = defaultCameraState := by
  unfold reconcile_animationState at hok
  cases hms : reconcileModelStates fromEuler slerp sep.modelKeyframes currentTime with
  | error e => rw [hms] at hok; exact absurd hok (by simp)
  | ok modelStates =>
    rw [hms] at hok
    cases hok
    constructor
    · unfold reconcileModelStates at hms
      exact foldlM_zero_preserves_default h0 sep.modelKeyframes _ modelStates
        (fun ek he =>
          clampedProgression_of_before _ _ _ (hmodel ek he).1 (hmodel ek he).2)
        (initModelStates_allDefault sep.modelKeyframes) hms
    · exact reconcileCameraState_before_first sep.cameraKeyframes currentTime hcam

/-- A normal (non-instantaneous) scene for the C9 witness: one model keyframe
on `[5,7]`, one camera keyframe on `[4,6]`, queried at time 0. -/
def normalScene : SeparatedKeyframesExtended :=
  ⟨[⟨⟨5, 7⟩, ⟨5, 7⟩, ⟨"nk", "m", some 1, some (.absolute ⟨3, 3, 3⟩), none⟩⟩],
   [⟨⟨4, 6⟩, ⟨4, 6⟩, ⟨"ck", 30, 40, ⟨1, 2, 3⟩, 2⟩⟩]⟩

theorem default_state_before_start_witness :
    (∀ a b, sampleSlerp a b 0 = a) ∧
    (∀ ek ∈ normalScene.modelKeyframes, (0 : ℚ) < ek.reconciled.startTime ∧
      EPSILON < ek.extended.endTime - ek.reconciled.startTime) ∧
    (∀ ck ∈ normalScene.cameraKeyframes, (0 : ℚ) < ck.reconciled.startTime) ∧
    ((∀ id st,
        mapGet (AnimationSnapshot3D.mk [("m", defaultModelState)] defaultCameraState).models
          id = some st → st = defaultModelState) ∧
      (AnimationSnapshot3D.mk [("m", defaultModelState)] defaultCameraState).camera =
        defaultCameraState) :=
  ⟨fun a b => by simp [sampleSlerp],
   by with_unfolding_all decide,
   by with_unfolding_all decide,
   default_state_before_start sampleFromEuler sampleSlerp normalScene 0
     ⟨[("m", defaultModelState)], defaultCameraState⟩
     (fun a b => by simp [sampleSlerp])
     (by with_unfolding_all decide)
     (by with_unfolding_all decide)
     (by with_unfolding_all decide)⟩

/-! ## Snapshot domain (C10) -/

theorem mapGet_cons_pos (a : String × ModelAnimationState3D) (rest : StateMap)
    (id : String) (h : a.1 = id) : mapGet (a :: rest) id = some a.2 := by
  unfold mapGet
  rw [find?_cons_pos (fun p => p.1 == id) a rest (by simp [h])]
  rfl

theorem mapGet_cons_neg (a : String × ModelAnimationState3D) (rest : StateMap)
    (id : String) (h : a.1 ≠ id) : mapGet (a :: rest) id = mapGet rest id := by
  unfold mapGet
  rw [find?_cons_neg (fun p => p.1 == id) a rest (by simpa using h)]

theorem mapGet_isSome_iff (m : StateMap) (id : String) :
    (∃ st, mapGet m id = some st) ↔ id ∈ m.map Prod.fst := by
  induction m with
  | nil => simp [mapGet_nil]
  | cons a rest ih =>
    by_cases ha : a.1 = id
    · rw [mapGet_cons_pos a rest id ha]
      simp [ha]
    · rw [mapGet_cons_neg a rest id ha]
      simp only [List.map_cons, List.mem_cons]
      rw [ih]
      constructor
      · intro h; exact Or.inr h
      · rintro (h | h)
        · exact absurd h.symm ha
        · exact h

theorem mapGet_some_isSome {m : StateMap} {k : String} {w : ModelAnimationState3D}
    (h : mapGet m k = some w) : (m.find? (fun p => p.1 == k)).isSome := by
  unfold mapGet at h
  cases hf : m.find? (fun p => p.1 == k) with
  | none => rw [hf] at h; simp at h
  | some a => simp [hf]

theorem mapSet_keys {m : StateMap} {k : String} {v : ModelAnimationState3D}
    (h : (m.find? (fun p => p.1 == k)).isSome) :
    (mapSet m k v).map Prod.fst = m.map Prod.fst := by
  unfold mapSet
  rw [if_pos h, List.map_map]
  refine List.map_congr_left ?_
  intro p _
  by_cases hpk : (p.1 == k) = true
  · have hk : p.1 = k := by simpa using hpk
    simp [Function.comp, hpk, hk]
  · simp [Function.comp, hpk]

theorem reconcileStep_keys {fromEuler : EulerS → Quaternion}
    {slerp : Quaternion → Quaternion → ℚ → Quaternion} {currentTime : ℚ}
    {m m2 : StateMap} {ek : ExtendedModelKeyframe}
    (hok : reconcileStep fromEuler slerp currentTime m ek = .ok m2) :
    m2.map Prod.fst = m.map Prod.fst := by
  cases hget : mapGet m ek.keyframe.sceneModelID with
  | none => rw [reconcileStep_noState hget] at hok; exact absurd hok (by simp)
  | some previousState =>
    have hsome := mapGet_some_isSome hget
    cases hpos : ek.keyframe.position with
    | none =>
      rw [reconcileStep_posNone hget hpos] at hok
      cases hok
      exact mapSet_keys hsome
    | some positionInfo =>
      cases positionInfo with
      | absolute value =>
        rw [reconcileStep_posAbsolute hget hpos] at hok
        cases hok
        exact mapSet_keys hsome
      | relative value =>
        rw [reconcileStep_posRelative hget hpos] at hok
        cases hok
        exact mapSet_keys hsome
      | marker markerData =>
        cases hmt : calculateMarkerTransform fromEuler slerp markerData
            (mapGet m markerData.parentID)
            { previousState with
                opacity := nextOpacityOf previousState ek.keyframe
                  (stepProgression ek currentTime) }
            (stepProgression ek currentTime) with
        | error e =>
          rw [reconcileStep_marker_error hget hpos hmt] at hok
          exact absurd hok (by simp)
        | ok mt =>
          rw [reconcileStep_marker_ok hget hpos hmt] at hok
          cases hok
          exact mapSet_keys hsome

theorem foldlM_keys {fromEuler : EulerS → Quaternion}
    {slerp : Quaternion → Quaternion → ℚ → Quaternion} {currentTime : ℚ} :
    ∀ (kfs : List ExtendedModelKeyframe) (m states : StateMap),
    List.foldlM (reconcileStep fromEuler slerp currentTime) m kfs = .ok states →
    states.map Prod.fst = m.map Prod.fst := by
  intro kfs
  induction kfs with
  | nil =>
    intro m states h
    rw [List.foldlM_nil] at h
    cases h
    rfl
  | cons ek rest ih =>
    intro m states h
    rw [List.foldlM_cons] at h
    obtain ⟨m2, hm2, hrest⟩ := exceptBind_ok h
    rw [ih m2 states hrest, reconcileStep_keys hm2]

theorem initFold_keys : ∀ (l : List ExtendedModelKeyframe) (m : StateMap),
    (m.map Prod.fst).Nodup →
    ((l.foldl (fun m ek =>
        match mapGet m ek.keyframe.sceneModelID with
        | some _ => m
        | none => m ++ [(ek.keyframe.sceneModelID, defaultModelState)]) m).map
      Prod.fst).Nodup ∧
    ∀ id, id ∈ (l.foldl (fun m ek =>
        match mapGet m ek.keyframe.sceneModelID with
        | some _ => m
        | none => m ++ [(ek.keyframe.sceneModelID, defaultModelState)]) m).map Prod.fst ↔
      (id ∈ m.map Prod.fst ∨ id ∈ l.map (fun ek => ek.keyframe.sceneModelID)) := by
  intro l
  induction l with
  | nil =>
    intro m hm
    exact ⟨hm, fun id => by simp⟩
  | cons ek rest ih =>
    intro m hm
    simp only [List.foldl_cons]
    cases hget : mapGet m ek.keyframe.sceneModelID with
    | some w =>
      have hkmem : ek.keyframe.sceneModelID ∈ m.map Prod.fst :=
        (mapGet_isSome_iff m ek.keyframe.sceneModelID).mp ⟨w, hget⟩
      obtain ⟨hnd, hiff⟩ := ih m hm
      refine ⟨hnd, fun id => ?_⟩
      rw [hiff id]
      simp only [List.map_cons, List.mem_cons]
      constructor
      · rintro (h | h)
        · exact Or.inl h
        · exact Or.inr (Or.inr h)
      · rintro (h | h | h)
        · exact Or.inl h
        · exact Or.inl (h ▸ hkmem)
        · exact Or.inr h
    | none =>
      have hknot : ek.keyframe.sceneModelID ∉ m.map Prod.fst := by
        intro hmem
        obtain ⟨st, hst⟩ := (mapGet_isSome_iff m ek.keyframe.sceneModelID).mpr hmem
        rw [hget] at hst
        exact absurd hst (by simp)
      have hnd2 : ((m ++ [(ek.keyframe.sceneModelID, defaultModelState)]).map
          Prod.fst).Nodup := by
        rw [List.map_append]
        simp only [List.map_cons, List.map_nil]
        rw [List.nodup_append]
        exact ⟨hm, List.nodup_singleton _, by simpa using hknot⟩
      obtain ⟨hnd, hiff⟩ := ih (m ++ [(ek.keyframe.sceneModelID, defaultModelState)]) hnd2
      refine ⟨hnd, fun id => ?_⟩
      rw [hiff id]
      rw [List.map_append]
      simp only [List.map_cons, List.map_nil, List.mem_append, List.mem_cons,
        List.mem_singleton, List.not_mem_nil, or_false, List.mem_cons]
      constructor
      · rintro ((h | h) | h)
        · exact Or.inl h
        · exact Or.inr (Or.inl h)
        · exact Or.inr (Or.inr h)
      · rintro (h | h | h)
        · exact Or.inl (Or.inl h)
        · exact Or.inl (Or.inr h)
        · exact Or.inr h

theorem initModelStates_keys (kfs : List ExtendedModelKeyframe) :
    ((initModelStates kfs).map Prod.fst).Nodup ∧
    ∀ id, id ∈ (initModelStates kfs).map Prod.fst ↔
      id ∈ kfs.map (fun ek => ek.keyframe.sceneModelID) := by
  unfold initModelStates
  obtain ⟨hnd, hiff⟩ := initFold_keys kfs [] (by simp)
  refine ⟨hnd, fun id => ?_⟩
  rw [hiff id]
  simp

/-- C10: on every successful reconciliation, the snapshot's models map
contains exactly one entry per distinct scene-model id occurring among the
model keyframes, independently of the query time (an entity gains its
entry even when the query time precedes all of its keyframes); the camera
state is always present by construction of `AnimationSnapshot3D`. -/
theorem snapshot_domain_spec (fromEuler : EulerS → Quaternion)
    (slerp : Quaternion → Quaternion → ℚ → Quaternion)
    (sep : SeparatedKeyframesExtended) (currentTime : ℚ) (snap : AnimationSnapshot3D)
    (hok : reconcile_animationState fromEuler slerp sep currentTime = .ok snap) :
    (snap.models.map Prod.fst).Nodup ∧
    ∀ id, (∃ st, mapGet snap.models id = some st) ↔
      id ∈ sep.modelKeyframes.map (fun ek => ek.keyframe.sceneModelID) := by
  unfold reconcile_animationState at hok
  cases hms : reconcileModelStates fromEuler slerp sep.modelKeyframes currentTime with
  | error e => rw [hms] at hok; exact absurd hok (by simp)
  | ok modelStates =>
    rw [hms] at hok
    cases hok
    unfold reconcileModelStates at hms
    have hkeys := foldlM_keys sep.modelKeyframes _ modelStates hms
    obtain ⟨hnd, hiff⟩ := initModelStates_keys sep.modelKeyframes
    constructor
    · rw [show (AnimationSnapshot3D.mk modelStates
        (reconcileCameraState sep.cameraKeyframes currentTime)).models = modelStates from rfl]
      rw [hkeys]
      exact hnd
    · intro id
      rw [show (AnimationSnapshot3D.mk modelStates
        (reconcileCameraState sep.cameraKeyframes currentTime)).models = modelStates from rfl]
      rw [mapGet_isSome_iff, hkeys]
      exact hiff id

theorem snapshot_domain_spec_witness :
    reconcile_animationState sampleFromEuler sampleSlerp
      ⟨demoModelKfs, []⟩ 2 = .ok ⟨demoStates, defaultCameraState⟩ ∧
    ((AnimationSnapshot3D.mk demoStates defaultCameraState).models.map Prod.fst).Nodup ∧
    ∀ id, (∃ st,
        mapGet (AnimationSnapshot3D.mk demoStates defaultCameraState).models id = some st) ↔
      id ∈ demoModelKfs.map (fun ek => ek.keyframe.sceneModelID) :=
  ⟨by with_unfolding_all decide,
   (snapshot_domain_spec sampleFromEuler sampleSlerp ⟨demoModelKfs, []⟩ 2
     ⟨demoStates, defaultCameraState⟩ (by with_unfolding_all decide)).1,
   (snapshot_domain_spec sampleFromEuler sampleSlerp ⟨demoModelKfs, []⟩ 2
     ⟨demoStates, defaultCameraState⟩ (by with_unfolding_all decide)).2⟩

/-! ## Camera reconciliation (C5) -/

/-- Modelled from the spec's words for comparison: shortest-arc
interpolation of an angle in degrees — the delta is wrapped into a single
turn (the representative of `b - a` modulo 360 nearest zero) before
scaling by `t`. -/
def shortestArcLerpSpec (a b t : ℚ) : ℚ :=
  a + (b - a - 360 * (Rat.floor ((b - a + 180) / 360))) * t

/-- The camera timeline of the counterexample: target rotationX 350 on
`[0,1]`, then target rotationX 10 on `[2,4]`. -/
def demoCamKfs : List ExtendedCameraKeyframe :=
  [⟨⟨0, 1⟩, ⟨0, 1⟩, ⟨"c1", 350, 0, ⟨0, 0, 0⟩, 1⟩⟩,
   ⟨⟨2, 4⟩, ⟨2, 4⟩, ⟨"c2", 10, 0, ⟨0, 0, 0⟩, 1⟩⟩]

/-- C5 counterexample: midway through the second keyframe's window the code
linearly interpolates the rotation angle from 350 toward 10, giving 180 —
it does not take the shortest arc through 360 (the spec-side
shortest-arc interpolation gives 360). -/
theorem camera_shortest_arc_false :
    (reconcileCameraState demoCamKfs 3).rotationX = 180 ∧
    shortestArcLerpSpec 350 10 (1 / 2) = 360 ∧
    (180 : ℚ) ≠ 360 :=
  ⟨by with_unfolding_all decide, by with_unfolding_all decide,
   by with_unfolding_all decide⟩

/-- The last keyframe's target pose, or the fallback on an empty list (the
pose the walk holds when it arrives at the next keyframe). -/
def lastTargetOr (fallback : CameraAnimationState3D) :
    List ExtendedCameraKeyframe → CameraAnimationState3D
  | [] => fallback
  | p :: rest => lastTargetOr (cameraStateFromKeyframe p.keyframe) rest

/-- The pose held before the segment of a keyframe: the previous keyframe's
target pose, or the default pose when there is none. -/
def prevPoseOf (pre : List ExtendedCameraKeyframe) : CameraAnimationState3D :=
  lastTargetOr defaultCameraState pre

theorem cameraWalk_blend {currentTime : ℚ} {prevPose : CameraAnimationState3D}
    {cur : ExtendedCameraKeyframe} {rest : List ExtendedCameraKeyframe}
    (h1 : cur.reconciled.startTime ≤ currentTime)
    (h2 : currentTime ≤ cur.extended.endTime + EPSILON) :
    cameraWalk currentTime prevPose (cur :: rest) =
      cameraBlend prevPose (cameraStateFromKeyframe cur.keyframe)
        cur.reconciled.startTime cur.extended.endTime currentTime := by
  simp only [cameraWalk]
  rw [if_pos ⟨h1, h2⟩]

theorem cameraWalk_last_hold {currentTime : ℚ} {prevPose : CameraAnimationState3D}
    {cur : ExtendedCameraKeyframe}
    (h : ¬(currentTime ≥ cur.reconciled.startTime ∧
      currentTime ≤ cur.extended.endTime + EPSILON)) :
    cameraWalk currentTime prevPose [cur] = cameraStateFromKeyframe cur.keyframe := by
  simp only [cameraWalk]
  rw [if_neg h]

theorem cameraWalk_hold {currentTime : ℚ} {prevPose : CameraAnimationState3D}
    {cur next : ExtendedCameraKeyframe} {rest : List ExtendedCameraKeyframe}
    (h : ¬(currentTime ≥ cur.reconciled.startTime ∧
      currentTime ≤ cur.extended.endTime + EPSILON))
    (hn : currentTime < next.reconciled.startTime) :
    cameraWalk currentTime prevPose (cur :: next :: rest) =
      cameraStateFromKeyframe cur.keyframe := by
  simp only [cameraWalk]
  rw [if_neg h, if_pos hn]

theorem cameraWalk_step {currentTime : ℚ} {prevPose : CameraAnimationState3D}
    {cur next : ExtendedCameraKeyframe} {rest : List ExtendedCameraKeyframe}
    (h : ¬(currentTime ≥ cur.reconciled.startTime ∧
      currentTime ≤ cur.extended.endTime + EPSILON))
    (hn : ¬currentTime < next.reconciled.startTime) :
    cameraWalk currentTime prevPose (cur :: next :: rest) =
      cameraWalk currentTime (cameraStateFromKeyframe cur.keyframe) (next :: rest) := by
  simp only [cameraWalk]
  rw [if_neg h, if_neg hn]

theorem cameraWalk_skip (currentTime : ℚ) :
    ∀ (pre : List ExtendedCameraKeyframe) (cur : ExtendedCameraKeyframe)
      (rest : List ExtendedCameraKeyframe) (prevPose : CameraAnimationState3D),
    (∀ p ∈ pre, p.extended.endTime + EPSILON < currentTime) →
    (∀ p ∈ pre, p.reconciled.startTime ≤ currentTime) →
    cur.reconciled.startTime ≤ currentTime →
    cameraWalk currentTime prevPose (pre ++ cur :: rest) =
      cameraWalk currentTime (lastTargetOr prevPose pre) (cur :: rest) := by
  intro pre
  induction pre with
  | nil => intro cur rest prevPose _ _ _; rfl
  | cons p pre ih =>
    intro cur rest prevPose hend hstart hcur
    have hp : p ∈ p :: pre := List.mem_cons_self p pre
    have hwin : ¬(currentTime ≥ p.reconciled.startTime ∧
        currentTime ≤ p.extended.endTime + EPSILON) := by
      intro hc
      have := hend p hp
      linarith [hc.2]
    rw [List.cons_append]
    show cameraWalk currentTime prevPose (p :: (pre ++ cur :: rest)) =
      cameraWalk currentTime
        (lastTargetOr (cameraStateFromKeyframe p.keyframe) pre) (cur :: rest)
    cases pre with
    | nil =>
      rw [show ([] : List ExtendedCameraKeyframe) ++ cur :: rest = cur :: rest from rfl,
        cameraWalk_step hwin (not_lt.mpr hcur)]
      rfl
    | cons q qs =>
      have hq : q ∈ p :: q :: qs :=
        List.mem_cons_of_mem p (List.mem_cons_self q qs)
      rw [List.cons_append, cameraWalk_step hwin (not_lt.mpr (hstart q hq))]
      exact ih cur rest (cameraStateFromKeyframe p.keyframe)
        (fun r hr => hend r (List.mem_cons_of_mem p hr))
        (fun r hr => hstart r (List.mem_cons_of_mem p hr)) hcur

theorem reconcileCameraState_walk {keyframes : List ExtendedCameraKeyframe}
    {currentTime : ℚ} {first : ExtendedCameraKeyframe}
    {rest : List ExtendedCameraKeyframe}
    (hsort : List.insertionSort cameraStartLE keyframes = keyframes)
    (hk : keyframes = first :: rest)
    (hnot : ¬currentTime < first.reconciled.startTime) :
    reconcileCameraState keyframes currentTime =
      cameraWalk currentTime defaultCameraState (first :: rest) := by
  unfold reconcileCameraState
  rw [hsort, hk]
  show (if currentTime < first.reconciled.startTime then defaultCameraState
    else cameraWalk currentTime defaultCameraState (first :: rest)) =
    cameraWalk currentTime defaultCameraState (first :: rest)
  rw [if_neg hnot]

/-- Pairwise strict separation of a camera timeline: each keyframe's extended
end (plus the epsilon slack) precedes every later keyframe's start. -/
def camSeparated (keyframes : List ExtendedCameraKeyframe) : Prop :=
  keyframes.Pairwise
    (fun a b => a.extended.endTime + EPSILON < b.reconciled.startTime)

theorem camSeparated_sorted {keyframes : List ExtendedCameraKeyframe}
    (hwin : ∀ kf ∈ keyframes, kf.reconciled.startTime ≤ kf.extended.endTime)
    (hsep : camSeparated keyframes) :
    List.insertionSort cameraStartLE keyframes = keyframes := by
  refine List.Sorted.insertionSort_eq ?_
  refine List.Pairwise.imp_of_mem ?_ hsep
  intro a b ha _ hab
  have heps : (0 : ℚ) < EPSILON := by norm_num [EPSILON]
  have h1 := hwin a ha
  unfold cameraStartLE
  linarith

/-- The general reach lemma: when everything before `cur` is strictly in the
past, the reconciler's walk arrives at `cur` holding the previous
keyframe's target pose. -/
theorem reconcileCameraState_reaches {keyframes pre rest : List ExtendedCameraKeyframe}
    {cur : ExtendedCameraKeyframe} {currentTime : ℚ}
    (hsort : List.insertionSort cameraStartLE keyframes = keyframes)
    (hk : keyframes = pre ++ cur :: rest)
    (hpend : ∀ p ∈ pre, p.extended.endTime + EPSILON < currentTime)
    (hpstart : ∀ p ∈ pre, p.reconciled.startTime ≤ currentTime)
    (hcur : cur.reconciled.startTime ≤ currentTime) :
    reconcileCameraState keyframes currentTime =
      cameraWalk currentTime (prevPoseOf pre) (cur :: rest) := by
  cases hpre : pre with
  | nil =>
    subst hpre
    rw [reconcileCameraState_walk hsort (by simpa using hk) (not_lt.mpr hcur)]
    rfl
  | cons p0 pre2 =>
    subst hpre
    rw [reconcileCameraState_walk hsort (by simpa using hk)
      (not_lt.mpr (hpstart p0 (List.mem_cons_self p0 pre2)))]
    exact cameraWalk_skip currentTime (p0 :: pre2) cur rest defaultCameraState
      hpend hpstart hcur

/-- C5 (amended): over a well-formed camera timeline (windows close after
they open, and consecutive windows are separated by more than the blend
epsilon), the reconciled camera state is: the fixed default pose before
the first keyframe's start (and on an empty timeline); inside the segment
of the keyframe containing the query time, the pose blended from the
previous keyframe's target pose toward the current keyframe's target pose
— pan/zoom and both rotation angles all linearly interpolated (no
shortest-arc wrapping) — over the current keyframe's own window; between
a keyframe's end and the next keyframe's start, the completed target
pose; and after the final keyframe, its target pose indefinitely. -/
theorem camera_segments_spec (keyframes : List ExtendedCameraKeyframe)
    (currentTime : ℚ)
    (hwin : ∀ kf ∈ keyframes, kf.reconciled.startTime ≤ kf.extended.endTime)
    (hsep : camSeparated keyframes) :
    (keyframes = [] → reconcileCameraState keyframes currentTime = defaultCameraState) ∧
    (∀ first rest, keyframes = first :: rest →
      currentTime < first.reconciled.startTime →
      reconcileCameraState keyframes currentTime = defaultCameraState) ∧
    (∀ pre cur post, keyframes = pre ++ cur :: post →
      cur.reconciled.startTime ≤ currentTime →
      currentTime ≤ cur.extended.endTime + EPSILON →
      reconcileCameraState keyframes currentTime =
        cameraBlend (prevPoseOf pre) (cameraStateFromKeyframe cur.keyframe)
          cur.reconciled.startTime cur.extended.endTime currentTime) ∧
    (∀ pre cur next post, keyframes = pre ++ cur :: next :: post →
      cur.extended.endTime + EPSILON < currentTime →
      currentTime < next.reconciled.startTime →
      reconcileCameraState keyframes currentTime =
        cameraStateFromKeyframe cur.keyframe) ∧
    (∀ pre last, keyframes = pre ++ [last] →
      last.extended.endTime + EPSILON < currentTime →
      reconcileCameraState keyframes currentTime =
        cameraStateFromKeyframe last.keyframe) := by
  have hsort := camSeparated_sorted hwin hsep
  have heps : (0 : ℚ) < EPSILON := by norm_num [EPSILON]
  have hprefacts : ∀ (pre : List ExtendedCameraKeyframe)
      (cur : ExtendedCameraKeyframe) (rest : List ExtendedCameraKeyframe),
      keyframes = pre ++ cur :: rest → cur.reconciled.startTime ≤ currentTime →
      (∀ p ∈ pre, p.extended.endTime + EPSILON < currentTime) ∧
      (∀ p ∈ pre, p.reconciled.startTime ≤ currentTime) := by
    intro pre cur rest hk hcur
    have hsep2 : (pre ++ cur :: rest).Pairwise
        (fun a b => a.extended.endTime + EPSILON < b.reconciled.startTime) := by
      rw [← hk]; exact hsep
    have hparts := List.pairwise_append.mp hsep2
    have hend : ∀ p ∈ pre, p.extended.endTime + EPSILON < currentTime := by
      intro p hp
      have := hparts.2.2 p hp cur (List.mem_cons_self cur rest)
      linarith
    refine ⟨hend, fun p hp => ?_⟩
    have h1 : p.reconciled.startTime ≤ p.extended.endTime :=
      hwin p (by rw [hk]; exact List.mem_append_left _ hp)
    have := hend p hp
    linarith
  refine ⟨?_, ?_, ?_, ?_, ?_⟩
  · intro hk
    unfold reconcileCameraState
    rw [hsort, hk]
  · intro first rest hk hbefore
    unfold reconcileCameraState
    rw [hsort, hk]
    show (if currentTime < first.reconciled.startTime then defaultCameraState
      else cameraWalk currentTime defaultCameraState (first :: rest)) = defaultCameraState
    rw [if_pos hbefore]
  · intro pre cur post hk h1 h2
    obtain ⟨hpend, hpstart⟩ := hprefacts pre cur post hk h1
    rw [reconcileCameraState_reaches hsort hk hpend hpstart h1]
    exact cameraWalk_blend h1 h2
  · intro pre cur next post hk hafter hbefore
    have hcur : cur.reconciled.startTime ≤ currentTime := by
      have h1 : cur.reconciled.startTime ≤ cur.extended.endTime :=
        hwin cur (by rw [hk]; exact List.mem_append_right _ (List.mem_cons_self _ _))
      linarith
    obtain ⟨hpend, hpstart⟩ := hprefacts pre cur (next :: post) hk hcur
    rw [reconcileCameraState_reaches hsort hk hpend hpstart hcur]
    exact cameraWalk_hold (fun hc => by linarith [hc.2]) hbefore
  · intro pre last hk hafter
    have hcur : last.reconciled.startTime ≤ currentTime := by
      have h1 : last.reconciled.startTime ≤ last.extended.endTime :=
        hwin last (by rw [hk]; exact List.mem_append_right _ (List.mem_cons_self _ _))
      linarith
    obtain ⟨hpend, hpstart⟩ := hprefacts pre last [] hk hcur
    rw [reconcileCameraState_reaches hsort hk hpend hpstart hcur]
    exact cameraWalk_last_hold (fun hc => by linarith [hc.2])

theorem camera_segments_spec_witness :
    (∀ kf ∈ demoCamKfs, kf.reconciled.startTime ≤ kf.extended.endTime) ∧
    camSeparated demoCamKfs ∧
    reconcileCameraState demoCamKfs 3 =
      cameraBlend (prevPoseOf [⟨⟨0, 1⟩, ⟨0, 1⟩, ⟨"c1", 350, 0, ⟨0, 0, 0⟩, 1⟩⟩])
        (cameraStateFromKeyframe (⟨⟨2, 4⟩, ⟨2, 4⟩, ⟨"c2", 10, 0, ⟨0, 0, 0⟩, 1⟩⟩ :
          ExtendedCameraKeyframe).keyframe) 2 4 3 :=
  ⟨by with_unfolding_all decide,
   by unfold camSeparated; with_unfolding_all decide,
   (camera_segments_spec demoCamKfs 3 (by with_unfolding_all decide)
       (by unfold camSeparated; with_unfolding_all decide)).2.2.1
     [⟨⟨0, 1⟩, ⟨0, 1⟩, ⟨"c1", 350, 0, ⟨0, 0, 0⟩, 1⟩⟩]
     ⟨⟨2, 4⟩, ⟨2, 4⟩, ⟨"c2", 10, 0, ⟨0, 0, 0⟩, 1⟩⟩ []
     (by with_unfolding_all decide) (by with_unfolding_all decide)
     (by with_unfolding_all decide)⟩

/-! ## Dependency Sorter (`03_reconcileKeyframes_sortForMarkerPositions.ts`)

The sorter is transcribed from the 2D source (the claim's code reference);
it only reads the entity id, the marker parent and the extended start time
of each keyframe, so it is stated over the same extended-keyframe
structures as the reconciler (the 2D field `sceneObjectID` corresponds to
`sceneModelID` here). -/

/-- `getObjectIDFromModelKeyframe`. -/
def objectIDOf (kf : ExtendedModelKeyframe) : String := kf.keyframe.sceneModelID

/-- `modelKeyframeHasMarkerPosition`. -/
def modelKeyframeHasMarkerPosition (kf : ExtendedModelKeyframe) : Bool :=
  match kf.keyframe.position with
  | some (.marker _) => true
  | _ => false

/-- `getParentObjectIDsFromModelKeyframe`: one parent id per marker keyframe
(the defensive empty-list branches of the source are unrepresentable in
the typed model). -/
def getParentObjectIDsFromModelKeyframe (kf : ExtendedModelKeyframe) : List String :=
  match kf.keyframe.position with
  | some (.marker markerValue) => [markerValue.parentID]
  | _ => []

/-- Insertion into a JS `Set` / first-occurrence id list. -/
def insertUniq (l : List String) (s : String) : List String :=
  if s ∈ l then l else l ++ [s]

/-- The entity ids in first-occurrence order (`initialObjectIDs`, whose
iteration order is insertion order). -/
def objectIDsInOrder (keyframes : List ExtendedModelKeyframe) : List String :=
  keyframes.foldl (fun acc kf => insertUniq acc (objectIDOf kf)) []

/-- `modelKeyframesByObjectID.get oid`: the keyframes of one entity in
ingestion order. -/
def keyframesForObject (keyframes : List ExtendedModelKeyframe) (oid : String) :
    List ExtendedModelKeyframe :=
  keyframes.filter (fun kf => objectIDOf kf == oid)

/-- The parent-id set of one entity (`dependsOn.get oid` and equally the
`parentIDs` set rebuilt in each pass), in insertion order. -/
def parentIDsOfObject (keyframes : List ExtendedModelKeyframe) (oid : String) :
    List String :=
  ((keyframesForObject keyframes oid).filter modelKeyframeHasMarkerPosition).foldl
    (fun acc kf => (getParentObjectIDsFromModelKeyframe kf).foldl insertUniq acc) []

/-- The `canSort` check of one pass: every parent already sorted, in a
previous pass (`sortedObjectIDs`) or earlier in this one
(`newlySortedThisPass`). -/
def canSort (keyframes : List ExtendedModelKeyframe) (sorted newly : List String)
    (oid : String) : Bool :=
  (parentIDsOfObject keyframes oid).all
    (fun p => decide (p ∈ sorted) || decide (p ∈ newly))

/-- One pass of the topological sort (the `remainingObjectIDs.forEach` body):
objects sortable given what is already sorted are appended to the newly
sorted list — which grows live within the pass — the others stay, in
order.  Returns `(newlySorted so far ++ found, still remaining)`. -/
def topoPassGo (keyframes : List ExtendedModelKeyframe) (sorted : List String) :
    List String → List String → List String × List String
  | newly, [] => (newly, [])
  | newly, oid :: rest =>
    if canSort keyframes sorted newly oid then
      topoPassGo keyframes sorted (newly ++ [oid]) rest
    else
      let out := topoPassGo keyframes sorted newly rest
      (out.1, oid :: out.2)

/-- The sorter's batch-fatal failures.  The source distinguishes a
cycle report (via a DFS cycle detector) from an unresolved-dependency
report and an iteration-limit error; the claims settled here only concern
successful runs, so the diagnostic payloads are not modelled. -/
inductive SortError
  | sortFailure
deriving DecidableEq, Repr

/-- The `while` loop: run passes while objects remain; a pass without
progress is fatal, as is exceeding the iteration limit. -/
def topoLoop (keyframes : List ExtendedModelKeyframe) :
    Nat → List String → List String → Except SortError (List String)
  | 0, sorted, remaining =>
    if remaining.isEmpty then .ok sorted else .error .sortFailure
  | fuel + 1, sorted, remaining =>
    if remaining.isEmpty then .ok sorted
    else
      if (topoPassGo keyframes sorted [] remaining).1.isEmpty then .error .sortFailure
      else
        topoLoop keyframes fuel (sorted ++ (topoPassGo keyframes sorted [] remaining).1)
          (topoPassGo keyframes sorted [] remaining).2

/-- Ordering by a rational sort key (the comparator
`(a, b) => a.extended.startTime - b.extended.startTime`; JS `sort` is
stable, which insertion sort by non-strict key comparison realizes). -/
def keyLE {α : Type} (key : α → ℚ) (a b : α) : Prop := key a ≤ key b

instance {α : Type} (key : α → ℚ) : DecidableRel (keyLE key) :=
  fun x y => inferInstanceAs (Decidable (_ ≤ _))

instance {α : Type} (key : α → ℚ) : IsTotal α (keyLE key) :=
  ⟨fun x y => le_total (key x) (key y)⟩

instance {α : Type} (key : α → ℚ) : IsTrans α (keyLE key) :=
  ⟨fun _ _ _ hxy hyz => le_trans hxy hyz⟩

/-- The per-entity stable time sort (line 282, on the extended start time). -/
def sortByStart (l : List ExtendedModelKeyframe) : List ExtendedModelKeyframe :=
  List.insertionSort (keyLE (fun kf => kf.extended.startTime)) l

/-- `sortCameraKeyframesByTime` (line 86, on the extended start time). -/
def sortCameraKeyframesByTime (l : List ExtendedCameraKeyframe) :
    List ExtendedCameraKeyframe :=
  List.insertionSort (keyLE (fun kf => kf.extended.startTime)) l

/-- `sortKeyframesForMarkerPositions` (lines 144-290): sort the camera purely
by time; group model keyframes by entity, topologically order the entities
by marker dependencies with `maxIterations = size + 10`, and emit each
entity's keyframes time-sorted, in entity order. -/
def sortKeyframesForMarkerPositions (separatedKeyframes : SeparatedKeyframesExtended) :
    Except SortError SeparatedKeyframesExtended :=
  if separatedKeyframes.modelKeyframes.isEmpty then
    .ok ⟨[], sortCameraKeyframesByTime separatedKeyframes.cameraKeyframes⟩
  else
    match topoLoop separatedKeyframes.modelKeyframes
        ((objectIDsInOrder separatedKeyframes.modelKeyframes).length + 10) []
        (objectIDsInOrder separatedKeyframes.modelKeyframes) with
    | .error e => .error e
    | .ok sortedObjectIDs =>
      .ok ⟨(sortedObjectIDs.map (fun oid =>
          sortByStart (keyframesForObject separatedKeyframes.modelKeyframes oid))).flatten,
        sortCameraKeyframesByTime separatedKeyframes.cameraKeyframes⟩

/-! ## Sorter lemmas: id lists -/

theorem insertUniq_mem (l : List String) (s x : String) :
    x ∈ insertUniq l s ↔ x ∈ l ∨ x = s := by
  unfold insertUniq
  by_cases hs : s ∈ l
  · rw [if_pos hs]
    constructor
    · exact Or.inl
    · rintro (h | rfl)
      · exact h
      · exact hs
  · rw [if_neg hs]
    simp

theorem insertUniq_nodup (l : List String) (s : String) (h : l.Nodup) :
    (insertUniq l s).Nodup := by
  unfold insertUniq
  by_cases hs : s ∈ l
  · rw [if_pos hs]; exact h
  · rw [if_neg hs]
    rw [List.nodup_append]
    exact ⟨h, List.nodup_singleton s, by simpa using hs⟩

theorem foldl_insertUniq_ids_mem :
    ∀ (kfs : List ExtendedModelKeyframe) (acc : List String) (x : String),
      x ∈ kfs.foldl (fun acc kf => insertUniq acc (objectIDOf kf)) acc ↔
        x ∈ acc ∨ ∃ kf ∈ kfs, objectIDOf kf = x := by
  intro kfs
  induction kfs with
  | nil => intro acc x; simp
  | cons kf rest ih =>
    intro acc x
    rw [List.foldl_cons, ih, insertUniq_mem]
    constructor
    · rintro ((h | h) | ⟨kf2, h2, h3⟩)
      · exact Or.inl h
      · exact Or.inr ⟨kf, List.mem_cons_self kf rest, h.symm⟩
      · exact Or.inr ⟨kf2, List.mem_cons_of_mem kf h2, h3⟩
    · rintro (h | ⟨kf2, h2, h3⟩)
      · exact Or.inl (Or.inl h)
      · rcases List.mem_cons.mp h2 with rfl | h2
        · exact Or.inl (Or.inr h3.symm)
        · exact Or.inr ⟨kf2, h2, h3⟩

theorem foldl_insertUniq_ids_nodup :
    ∀ (kfs : List ExtendedModelKeyframe) (acc : List String), acc.Nodup →
      (kfs.foldl (fun acc kf => insertUniq acc (objectIDOf kf)) acc).Nodup := by
  intro kfs
  induction kfs with
  | nil => intro acc h; exact h
  | cons kf rest ih =>
    intro acc h
    rw [List.foldl_cons]
    exact ih _ (insertUniq_nodup acc (objectIDOf kf) h)

theorem objectIDsInOrder_mem (kfs : List ExtendedModelKeyframe) (x : String) :
    x ∈ objectIDsInOrder kfs ↔ ∃ kf ∈ kfs, objectIDOf kf = x := by
  unfold objectIDsInOrder
  rw [foldl_insertUniq_ids_mem]
  simp

theorem objectIDsInOrder_nodup (kfs : List ExtendedModelKeyframe) :
    (objectIDsInOrder kfs).Nodup :=
  foldl_insertUniq_ids_nodup kfs [] List.nodup_nil

theorem foldl_insertUniq_strings_mem :
    ∀ (ls : List String) (acc : List String) (x : String),
      x ∈ ls.foldl insertUniq acc ↔ x ∈ acc ∨ x ∈ ls := by
  intro ls
  induction ls with
  | nil => intro acc x; simp
  | cons s rest ih =>
    intro acc x
    rw [List.foldl_cons, ih, insertUniq_mem]
    constructor
    · rintro ((h | h) | h)
      · exact Or.inl h
      · exact Or.inr (h ▸ List.mem_cons_self s rest)
      · exact Or.inr (List.mem_cons_of_mem s h)
    · rintro (h | h)
      · exact Or.inl (Or.inl h)
      · rcases List.mem_cons.mp h with rfl | h
        · exact Or.inl (Or.inr rfl)
        · exact Or.inr h

theorem foldl_parents_mem :
    ∀ (kfl : List ExtendedModelKeyframe) (acc : List String) (x : String),
      x ∈ kfl.foldl
          (fun acc kf => (getParentObjectIDsFromModelKeyframe kf).foldl insertUniq acc)
          acc ↔
        x ∈ acc ∨ ∃ kf ∈ kfl, x ∈ getParentObjectIDsFromModelKeyframe kf := by
  intro kfl
  induction kfl with
  | nil => intro acc x; simp
  | cons kf rest ih =>
    intro acc x
    rw [List.foldl_cons, ih, foldl_insertUniq_strings_mem]
    constructor
    · rintro ((h | h) | ⟨kf2, h2, h3⟩)
      · exact Or.inl h
      · exact Or.inr ⟨kf, List.mem_cons_self kf rest, h⟩
      · exact Or.inr ⟨kf2, List.mem_cons_of_mem kf h2, h3⟩
    · rintro (h | ⟨kf2, h2, h3⟩)
      · exact Or.inl (Or.inl h)
      · rcases List.mem_cons.mp h2 with rfl | h2
        · exact Or.inl (Or.inr h3)
        · exact Or.inr ⟨kf2, h2, h3⟩

theorem mem_parentIDsOfObject {kfs : List ExtendedModelKeyframe} {oid : String}
    {kf : ExtendedModelKeyframe} {mv : MarkerValue}
    (hkf : kf ∈ kfs) (hid : objectIDOf kf = oid)
    (hpos : kf.keyframe.position = some (.marker mv)) :
    mv.parentID ∈ parentIDsOfObject kfs oid := by
  unfold parentIDsOfObject
  rw [foldl_parents_mem]
  right
  refine ⟨kf, ?_, ?_⟩
  · refine List.mem_filter.mpr ⟨?_, ?_⟩
    · exact List.mem_filter.mpr ⟨hkf, by simp [hid]⟩
    · unfold modelKeyframeHasMarkerPosition
      rw [hpos]
  · unfold getParentObjectIDsFromModelKeyframe
    rw [hpos]
    exact List.mem_singleton.mpr rfl

/-! ## Sorter lemmas: the topological pass and loop -/

/-- Parent entities appear strictly before their children in an emitted
entity order. -/
def GoodOrder (kfs : List ExtendedModelKeyframe) (order : List String) : Prop :=
  ∀ pre oid post, order = pre ++ oid :: post →
    ∀ p ∈ parentIDsOfObject kfs oid, p ∈ pre

theorem append_singleton_decomp {α : Type} (L : List α) (a : α) (pre : List α)
    (x : α) (post : List α) (h : L ++ [a] = pre ++ x :: post) :
    (pre = L ∧ x = a ∧ post = []) ∨
      ∃ post2, post = post2 ++ [a] ∧ L = pre ++ x :: post2 := by
  rcases List.eq_nil_or_concat post with hpost | ⟨post2, b, hpost⟩
  · subst hpost
    have := List.append_inj' h (by simp)
    obtain ⟨h1, h2⟩ := this
    exact Or.inl ⟨h1.symm, (List.cons.inj h2).1.symm, rfl⟩
  · rw [List.concat_eq_append] at hpost
    subst hpost
    rw [show pre ++ x :: (post2 ++ [b]) = (pre ++ x :: post2) ++ [b] from by simp] at h
    obtain ⟨h1, h2⟩ := List.append_inj' h (by simp)
    exact Or.inr ⟨post2, by rw [(List.cons.inj h2).1], h1⟩

theorem goodOrder_nil (kfs : List ExtendedModelKeyframe) : GoodOrder kfs [] := by
  intro pre oid post h
  exfalso
  cases pre <;> simp at h

theorem goodOrder_append {kfs : List ExtendedModelKeyframe} {L : List String}
    {oid : String} (h : GoodOrder kfs L)
    (hp : ∀ p ∈ parentIDsOfObject kfs oid, p ∈ L) : GoodOrder kfs (L ++ [oid]) := by
  intro pre x post heq p hpx
  rcases append_singleton_decomp L oid pre x post heq with ⟨hpre, hx, _⟩ | ⟨post2, _, hL⟩
  · subst hpre
    subst hx
    exact hp p hpx
  · exact h pre x post2 hL p hpx

theorem topoPassGo_cons_pos {kfs : List ExtendedModelKeyframe} {sorted newly : List String}
    {oid : String} {rest : List String}
    (hcs : canSort kfs sorted newly oid = true) :
    topoPassGo kfs sorted newly (oid :: rest) =
      topoPassGo kfs sorted (newly ++ [oid]) rest := by
  rw [topoPassGo, if_pos hcs]

theorem topoPassGo_cons_neg {kfs : List ExtendedModelKeyframe} {sorted newly : List String}
    {oid : String} {rest : List String}
    (hcs : canSort kfs sorted newly oid = false) :
    topoPassGo kfs sorted newly (oid :: rest) =
      ((topoPassGo kfs sorted newly rest).1,
       oid :: (topoPassGo kfs sorted newly rest).2) := by
  rw [topoPassGo, if_neg (by simp [hcs])]

theorem canSort_parents {kfs : List ExtendedModelKeyframe} {sorted newly : List String}
    {oid : String} (hcs : canSort kfs sorted newly oid = true) :
    ∀ p ∈ parentIDsOfObject kfs oid, p ∈ sorted ++ newly := by
  intro p hp
  have := List.all_eq_true.mp hcs p hp
  rw [List.mem_append]
  rcases Bool.or_eq_true_iff.mp this with h | h
  · exact Or.inl (of_decide_eq_true h)
  · exact Or.inr (of_decide_eq_true h)

theorem topoPassGo_good (kfs : List ExtendedModelKeyframe) (sorted : List String) :
    ∀ (remaining newly : List String),
    GoodOrder kfs (sorted ++ newly) →
    GoodOrder kfs (sorted ++ (topoPassGo kfs sorted newly remaining).1) := by
  intro remaining
  induction remaining with
  | nil => intro newly h; exact h
  | cons oid rest ih =>
    intro newly h
    cases hcs : canSort kfs sorted newly oid with
    | true =>
      rw [topoPassGo_cons_pos hcs]
      refine ih (newly ++ [oid]) ?_
      rw [← List.append_assoc]
      exact goodOrder_append h (canSort_parents hcs)
    | false =>
      rw [topoPassGo_cons_neg hcs]
      exact ih newly h

theorem topoPassGo_perm (kfs : List ExtendedModelKeyframe) (sorted : List String) :
    ∀ (remaining newly : List String),
    List.Perm
      ((topoPassGo kfs sorted newly remaining).1 ++
        (topoPassGo kfs sorted newly remaining).2)
      (newly ++ remaining) := by
  intro remaining
  induction remaining with
  | nil =>
    intro newly
    show List.Perm ((newly, ([] : List String)).1 ++ (newly, ([] : List String)).2)
      (newly ++ [])
    exact List.Perm.refl _
  | cons oid rest ih =>
    intro newly
    cases hcs : canSort kfs sorted newly oid with
    | true =>
      rw [topoPassGo_cons_pos hcs]
      have := ih (newly ++ [oid])
      rw [List.append_assoc] at this
      exact this
    | false =>
      rw [topoPassGo_cons_neg hcs]
      have h1 : List.Perm
          ((topoPassGo kfs sorted newly rest).1 ++
            oid :: (topoPassGo kfs sorted newly rest).2)
          (oid :: ((topoPassGo kfs sorted newly rest).1 ++
            (topoPassGo kfs sorted newly rest).2)) := List.perm_middle
      have h2 := (ih newly).cons oid
      have h3 : List.Perm (oid :: (newly ++ rest)) (newly ++ oid :: rest) :=
        List.perm_middle.symm
      exact h1.trans (h2.trans h3)

theorem topoLoop_spec (kfs : List ExtendedModelKeyframe) :
    ∀ (fuel : Nat) (sorted remaining order : List String),
    topoLoop kfs fuel sorted remaining = .ok order → GoodOrder kfs sorted →
    List.Perm order (sorted ++ remaining) ∧ GoodOrder kfs order := by
  intro fuel
  induction fuel with
  | zero =>
    intro sorted remaining order h hg
    unfold topoLoop at h
    by_cases hr : remaining.isEmpty
    · rw [if_pos hr] at h
      cases h
      rw [List.isEmpty_iff.mp hr]
      exact ⟨by simp, hg⟩
    · rw [if_neg hr] at h
      exact absurd h (by simp)
  | succ n ih =>
    intro sorted remaining order h hg
    unfold topoLoop at h
    by_cases hr : remaining.isEmpty
    · rw [if_pos hr] at h
      cases h
      rw [List.isEmpty_iff.mp hr]
      exact ⟨by simp, hg⟩
    · rw [if_neg hr] at h
      by_cases hempty : (topoPassGo kfs sorted [] remaining).1.isEmpty
      · rw [if_pos hempty] at h
        exact absurd h (by simp)
      · rw [if_neg hempty] at h
        have hgood2 : GoodOrder kfs (sorted ++ (topoPassGo kfs sorted [] remaining).1) :=
          topoPassGo_good kfs sorted remaining [] (by simpa using hg)
        obtain ⟨hperm, hgood⟩ := ih _ _ order h hgood2
        refine ⟨?_, hgood⟩
        have hp2 := topoPassGo_perm kfs sorted remaining []
        rw [List.nil_append] at hp2
        have hassoc : (sorted ++ (topoPassGo kfs sorted [] remaining).1) ++
            (topoPassGo kfs sorted [] remaining).2 =
            sorted ++ ((topoPassGo kfs sorted [] remaining).1 ++
              (topoPassGo kfs sorted [] remaining).2) := by
          rw [List.append_assoc]
        rw [hassoc] at hperm
        exact hperm.trans (hp2.append_left sorted)

/-! ## Sorter lemmas: the stable time sort -/

theorem orderedInsert_filter_key {α : Type} (key : α → ℚ) (t : ℚ) (a : α) :
    ∀ l : List α,
    (List.orderedInsert (keyLE key) a l).filter (fun x => decide (key x = t)) =
      if key a = t then a :: l.filter (fun x => decide (key x = t))
      else l.filter (fun x => decide (key x = t)) := by
  intro l
  induction l with
  | nil =>
    by_cases hat : key a = t
    · simp [List.orderedInsert, hat]
    · simp [List.orderedInsert, hat]
  | cons b bs ih =>
    by_cases hab : keyLE key a b
    · rw [show List.orderedInsert (keyLE key) a (b :: bs) = a :: b :: bs from by
        rw [List.orderedInsert, if_pos hab]]
      by_cases hat : key a = t
      · rw [if_pos hat, List.filter_cons_of_pos (by simp [hat])]
      · rw [if_neg hat, List.filter_cons_of_neg (by simp [hat])]
    · have hba : key b < key a := not_le.mp hab
      rw [show List.orderedInsert (keyLE key) a (b :: bs) =
          b :: List.orderedInsert (keyLE key) a bs from by
        rw [List.orderedInsert, if_neg hab]]
      by_cases hbt : key b = t
      · have hat : ¬key a = t := by
          intro hc
          rw [hc, hbt] at hba
          exact absurd hba (lt_irrefl t)
        rw [if_neg hat, List.filter_cons_of_pos (by simp [hbt]),
          List.filter_cons_of_pos (by simp [hbt]), ih, if_neg hat]
      · rw [List.filter_cons_of_neg (by simp [hbt]),
          List.filter_cons_of_neg (by simp [hbt]), ih]

theorem insertionSort_filter_key {α : Type} (key : α → ℚ) (t : ℚ) :
    ∀ l : List α,
    (List.insertionSort (keyLE key) l).filter (fun x => decide (key x = t)) =
      l.filter (fun x => decide (key x = t)) := by
  intro l
  induction l with
  | nil => rfl
  | cons a l ih =>
    rw [show List.insertionSort (keyLE key) (a :: l) =
        List.orderedInsert (keyLE key) a (List.insertionSort (keyLE key) l) from rfl,
      orderedInsert_filter_key, ih]
    by_cases hat : key a = t
    · rw [if_pos hat, List.filter_cons_of_pos (by simp [hat])]
    · rw [if_neg hat, List.filter_cons_of_neg (by simp [hat])]

/-- Filtering by entity id. -/
def isObjP (oid : String) (kf : ExtendedModelKeyframe) : Bool := objectIDOf kf == oid

theorem mem_sortByStart_group {kfs : List ExtendedModelKeyframe} {oid : String}
    {kf : ExtendedModelKeyframe} (h : kf ∈ sortByStart (keyframesForObject kfs oid)) :
    objectIDOf kf = oid ∧ kf ∈ kfs := by
  have h2 := (List.mem_insertionSort _).mp h
  have h3 := List.mem_filter.mp h2
  exact ⟨by simpa using h3.2, h3.1⟩

theorem filter_group_self {kfs : List ExtendedModelKeyframe} {oid : String} :
    (sortByStart (keyframesForObject kfs oid)).filter (isObjP oid) =
      sortByStart (keyframesForObject kfs oid) :=
  List.filter_eq_self.mpr (fun kf hk => by simp [isObjP, (mem_sortByStart_group hk).1])

theorem filter_group_other {kfs : List ExtendedModelKeyframe} {oid oid2 : String}
    (h : oid2 ≠ oid) :
    (sortByStart (keyframesForObject kfs oid2)).filter (isObjP oid) = [] :=
  List.filter_eq_nil_iff.mpr
    (fun kf hk => by simp [isObjP, (mem_sortByStart_group hk).1, h])

theorem flatten_filter_single (kfs : List ExtendedModelKeyframe) (oid : String) :
    ∀ order : List String, order.Nodup →
    ((order.map (fun o => sortByStart (keyframesForObject kfs o))).flatten).filter
        (isObjP oid) =
      if oid ∈ order then sortByStart (keyframesForObject kfs oid) else [] := by
  intro order
  induction order with
  | nil => intro _; simp
  | cons o os ih =>
    intro hnd
    rw [List.map_cons, List.flatten_cons, List.filter_append, ih hnd.of_cons]
    by_cases ho : o = oid
    · subst ho
      have hnotos : o ∉ os := (List.nodup_cons.mp hnd).1
      rw [filter_group_self, if_neg hnotos, if_pos (List.mem_cons_self o os),
        List.append_nil]
    · rw [filter_group_other ho, List.nil_append]
      by_cases hos : oid ∈ os
      · rw [if_pos hos, if_pos (List.mem_cons_of_mem o hos)]
      · rw [if_neg hos, if_neg (by
          intro hc
          rcases List.mem_cons.mp hc with rfl | hc
          · exact ho rfl
          · exact hos hc)]

theorem sortKeyframes_ok (separatedKeyframes : SeparatedKeyframesExtended)
    (sortedObjectIDs : List String)
    (hemp : separatedKeyframes.modelKeyframes.isEmpty = false)
    (hloop : topoLoop separatedKeyframes.modelKeyframes
      ((objectIDsInOrder separatedKeyframes.modelKeyframes).length + 10) []
      (objectIDsInOrder separatedKeyframes.modelKeyframes) = .ok sortedObjectIDs) :
    sortKeyframesForMarkerPositions separatedKeyframes =
      .ok ⟨(sortedObjectIDs.map (fun oid =>
          sortByStart (keyframesForObject separatedKeyframes.modelKeyframes oid))).flatten,
        sortCameraKeyframesByTime separatedKeyframes.cameraKeyframes⟩ := by
  unfold sortKeyframesForMarkerPositions
  rw [if_neg (by simp [hemp]), hloop]

/-- C6: on every successful sort — camera keyframes are ordered purely by
start time, stably; the model keyframes are partitioned by target entity:
they are the concatenation, over a duplicate-free entity order covering
exactly the entities of the batch, of each entity's time-sorted keyframe
group; within each entity the output is ordered by start time with ties
kept in ingestion order (for each start time `t`, the entity's time-`t`
keyframes appear exactly as in the input); and every entity positioned via
a marker reference appears strictly after its parent entity's full
keyframe sequence. -/
theorem sorter_spec (input output : SeparatedKeyframesExtended)
    (h : sortKeyframesForMarkerPositions input = .ok output) :
    (output.cameraKeyframes.Pairwise
        (fun a b => a.extended.startTime ≤ b.extended.startTime) ∧
      ∀ t : ℚ, output.cameraKeyframes.filter
          (fun kf => decide (kf.extended.startTime = t)) =
        input.cameraKeyframes.filter (fun kf => decide (kf.extended.startTime = t))) ∧
    (∃ order : List String, order.Nodup ∧
      (∀ oid, oid ∈ order ↔ ∃ kf ∈ input.modelKeyframes, objectIDOf kf = oid) ∧
      output.modelKeyframes = (order.map (fun oid =>
        sortByStart (keyframesForObject input.modelKeyframes oid))).flatten) ∧
    (∀ oid : String,
      (output.modelKeyframes.filter (isObjP oid)).Pairwise
        (fun a b => a.extended.startTime ≤ b.extended.startTime) ∧
      ∀ t : ℚ,
        (output.modelKeyframes.filter (isObjP oid)).filter
            (fun kf => decide (kf.extended.startTime = t)) =
          (input.modelKeyframes.filter (isObjP oid)).filter
            (fun kf => decide (kf.extended.startTime = t))) ∧
    (∀ childID parentID : String,
      (∃ kf ∈ input.modelKeyframes, ∃ mv : MarkerValue, objectIDOf kf = childID ∧
        kf.keyframe.position = some (.marker mv) ∧ mv.parentID = parentID) →
      ∃ pre post, output.modelKeyframes = pre ++ post ∧
        (∀ kf ∈ pre, objectIDOf kf ≠ childID) ∧
        (∀ kf ∈ post, objectIDOf kf ≠ parentID)) := by
  have hcamera : output.cameraKeyframes =
      sortCameraKeyframesByTime input.cameraKeyframes ∧
      ∃ order : List String, order.Nodup ∧
      (∀ oid, oid ∈ order ↔ ∃ kf ∈ input.modelKeyframes, objectIDOf kf = oid) ∧
      GoodOrder input.modelKeyframes order ∧
      output.modelKeyframes = (order.map (fun oid =>
        sortByStart (keyframesForObject input.modelKeyframes oid))).flatten := by
    by_cases hempty : input.modelKeyframes.isEmpty
    · unfold sortKeyframesForMarkerPositions at h
      rw [if_pos hempty] at h
      cases h
      have hinnil : input.modelKeyframes = [] := List.isEmpty_iff.mp hempty
      exact ⟨rfl, [], List.nodup_nil, by simp [hinnil], goodOrder_nil _, by simp⟩
    · cases hloop : topoLoop input.modelKeyframes
          ((objectIDsInOrder input.modelKeyframes).length + 10) []
          (objectIDsInOrder input.modelKeyframes) with
      | error e =>
        unfold sortKeyframesForMarkerPositions at h
        rw [if_neg hempty, hloop] at h
        exact absurd h (by simp)
      | ok sortedObjectIDs =>
        rw [sortKeyframes_ok input sortedObjectIDs (by simpa using hempty) hloop] at h
        cases h
        obtain ⟨hperm0, hgood⟩ :=
          topoLoop_spec input.modelKeyframes _ [] _ _ hloop (goodOrder_nil _)
        have hperm : List.Perm sortedObjectIDs (objectIDsInOrder input.modelKeyframes) := by
          simpa using hperm0
        refine ⟨rfl, sortedObjectIDs,
          hperm.symm.nodup (objectIDsInOrder_nodup _), ?_, hgood, rfl⟩
        intro oid
        rw [hperm.mem_iff, objectIDsInOrder_mem]
  obtain ⟨hcam, order, hnd, hmem, hgood, hout⟩ := hcamera
  have hfilterEntity : ∀ oid : String, output.modelKeyframes.filter (isObjP oid) =
      if oid ∈ order then sortByStart (keyframesForObject input.modelKeyframes oid)
      else [] := by
    intro oid
    rw [hout]
    exact flatten_filter_single input.modelKeyframes oid order hnd
  refine ⟨⟨?_, ?_⟩, ⟨order, hnd, hmem, hout⟩, ?_, ?_⟩
  · rw [hcam]
    exact List.sorted_insertionSort
      (keyLE (fun kf : ExtendedCameraKeyframe => kf.extended.startTime))
      input.cameraKeyframes
  · intro t
    rw [hcam]
    exact insertionSort_filter_key _ t input.cameraKeyframes
  · intro oid
    constructor
    · rw [hfilterEntity oid]
      by_cases hmemo : oid ∈ order
      · rw [if_pos hmemo]
        exact List.sorted_insertionSort
          (keyLE (fun kf : ExtendedModelKeyframe => kf.extended.startTime)) _
      · rw [if_neg hmemo]
        exact List.Pairwise.nil
    · intro t
      rw [hfilterEntity oid]
      by_cases hmemo : oid ∈ order
      · rw [if_pos hmemo]
        exact insertionSort_filter_key _ t _
      · rw [if_neg hmemo]
        have hnone : input.modelKeyframes.filter (isObjP oid) = [] := by
          rw [List.filter_eq_nil_iff]
          intro kf hk hobj
          exact hmemo ((hmem oid).mpr ⟨kf, hk, by simpa [isObjP] using hobj⟩)
        rw [hnone]
  · intro childID parentID ⟨kf, hkf, mv, hid, hpos, hpid⟩
    have hchild : childID ∈ order := (hmem childID).mpr ⟨kf, hkf, hid⟩
    obtain ⟨o1, o2, horder⟩ := List.append_of_mem hchild
    have hparent : parentID ∈ o1 := by
      have hp := mem_parentIDsOfObject hkf hid hpos
      rw [hpid] at hp
      exact hgood o1 childID o2 horder parentID hp
    have hdisj := List.nodup_append.mp (horder ▸ hnd)
    have hchildnot : childID ∉ o1 := by
      intro hc
      exact hdisj.2.2 hc (List.mem_cons_self childID o2)
    have hparnot : parentID ∉ childID :: o2 := fun hx => hdisj.2.2 hparent hx
    refine ⟨(o1.map (fun oid =>
        sortByStart (keyframesForObject input.modelKeyframes oid))).flatten,
      ((childID :: o2).map (fun oid =>
        sortByStart (keyframesForObject input.modelKeyframes oid))).flatten, ?_, ?_, ?_⟩
    · rw [hout, horder, List.map_append, List.flatten_append]
    · intro kf2 hk2
      obtain ⟨l, hl, hkl⟩ := List.mem_flatten.mp hk2
      obtain ⟨o, ho, rfl⟩ := List.mem_map.mp hl
      have := (mem_sortByStart_group hkl).1
      rw [this]
      intro hc
      exact hchildnot (hc ▸ ho)
    · intro kf2 hk2
      obtain ⟨l, hl, hkl⟩ := List.mem_flatten.mp hk2
      obtain ⟨o, ho, rfl⟩ := List.mem_map.mp hl
      have := (mem_sortByStart_group hkl).1
      rw [this]
      intro hc
      exact hparnot (hc ▸ ho)

/-- The marker value of the sorter demo: child `C` attached to parent `P`. -/
def demoSortMv : MarkerValue := ⟨⟨0, 0, 0⟩, ⟨0, 0, 0⟩, "P"⟩

/-- The child keyframe of the sorter demo, ingested first. -/
def demoChildSortKf : ExtendedModelKeyframe :=
  ⟨⟨0, 1⟩, ⟨0, 1⟩, ⟨"ck", "C", none, some (.marker demoSortMv), none⟩⟩

/-- Two parent keyframes with equal start times (a stability tie). -/
def demoParentSortKfA : ExtendedModelKeyframe :=
  ⟨⟨3, 4⟩, ⟨3, 4⟩, ⟨"pa", "P", none, none, none⟩⟩

def demoParentSortKfB : ExtendedModelKeyframe :=
  ⟨⟨3, 5⟩, ⟨3, 5⟩, ⟨"pb", "P", some 1, none, none⟩⟩

def demoSortInput : SeparatedKeyframesExtended :=
  ⟨[demoChildSortKf, demoParentSortKfA, demoParentSortKfB], []⟩

/-- The sorted output: the parent's full sequence (tie kept in ingestion
order) strictly before the child's. -/
def demoSortOutput : SeparatedKeyframesExtended :=
  ⟨[demoParentSortKfA, demoParentSortKfB, demoChildSortKf], []⟩

theorem sorter_spec_witness :
    sortKeyframesForMarkerPositions demoSortInput = .ok demoSortOutput ∧
    (∃ kf ∈ demoSortInput.modelKeyframes, ∃ mv : MarkerValue,
      objectIDOf kf = "C" ∧ kf.keyframe.position = some (.marker mv) ∧
      mv.parentID = "P") ∧
    (∃ pre post, demoSortOutput.modelKeyframes = pre ++ post ∧
      (∀ kf ∈ pre, objectIDOf kf ≠ "C") ∧
      (∀ kf ∈ post, objectIDOf kf ≠ "P")) :=
  ⟨by with_unfolding_all decide,
   ⟨demoChildSortKf, by with_unfolding_all decide, demoSortMv, rfl, rfl, rfl⟩,
   (sorter_spec demoSortInput demoSortOutput (by with_unfolding_all decide)).2.2.2 "C" "P"
     ⟨demoChildSortKf, by with_unfolding_all decide, demoSortMv, rfl, rfl, rfl⟩⟩

end Sequencer
